import Mathlib

/-!
# Verification of the `publisher` pub/sub engine

Shallow embedding of `src/publisher.js` (module `publisher`, v1.6.2).
JavaScript `Map`s are modelled as insertion-ordered association lists
(`Map.set` on an existing key updates in place and keeps the position;
`Map.delete` removes the entry; iteration follows insertion order).
JS numbers that are used as integers (tokens, priorities, invocation
budgets) are modelled as `Nat`/`Int`.  Option-bag arguments are modelled
as structures of `Option` fields (`none` = the property is absent /
`undefined`); the claims only exercise boolean-or-absent option values,
so option fields carry `Option Bool` rather than arbitrary JS values.

Handlers and condition functions are opaque callables in the source; they
are modelled by identifiers (`Nat`) interpreted through environments
(`HEnv`, `CEnv`).  Handlers in this model return a value or throw; their
possible side effects on the engine state itself are outside the model
(no claim depends on a handler mutating the engine).  A ghost `callLog`
field records every actual handler call (handler id, topic, payload), and
`consoleErrors` models the diagnostic sink used by the exception guard.

The deferred-execution facility (`deferExecution`) is modelled by a FIFO
`pending` queue of bound `executeHandler` argument tuples: scheduling
appends to the queue and publishing returns without running them.
-/

/-- JS runtime values, restricted to the shapes the claims exercise. -/
inductive JsVal where
  | undef : JsVal
  | bool : Bool → JsVal
  | num : Int → JsVal
  | str : String → JsVal
deriving DecidableEq, Repr

/-- Outcome of calling an opaque JS callable: normal return or exception. -/
inductive HandlerOutcome where
  | ret : JsVal → HandlerOutcome
  | throw : String → HandlerOutcome
deriving DecidableEq, Repr

/-- Environment interpreting handler ids; arguments are positional
(first arg, second arg), mirroring `handler(a, b)` in the source. -/
def HEnv : Type := Nat → JsVal → JsVal → HandlerOutcome

/-- Environment interpreting condition-function ids (conditions return a
value; only a return of exactly `true` lets a message through). -/
def CEnv : Type := Nat → JsVal → JsVal → JsVal

/-- The option bag accepted by `publish` and `subscribe` (any JS object can
carry any of these properties; `none` models an absent property). -/
structure Options where
  async : Option Bool := none
  handleExceptions : Option Bool := none
  persist : Option Bool := none
  cancelable : Option Bool := none
  condition : Option Nat := none
  priority : Option Int := none
  invocations : Option Int := none
  topicArg : Option Bool := none
deriving DecidableEq, Repr

/-- The module-level `globalOptions` object. -/
structure GlobalOptions where
  async : Bool
  handleExceptions : Bool
  lenientUnsubscribe : Bool
deriving DecidableEq, Repr

/-- A subscriber record as stored in `subscrs`. -/
structure Subscriber where
  token : Nat
  topic : String
  handler : Nat
  options : Options
deriving DecidableEq, Repr

/-- A stored persistent message: payload plus the publish-time options. -/
structure PersistentMessage where
  data : JsVal
  options : Options
deriving DecidableEq, Repr

/-- Match candidate produced by `findSubscribers`: the fields
`position`, `priority` and `async` that the source assigns onto the
subscriber object during the traversal. -/
structure Candidate where
  token : Nat
  priority : Int
  position : Nat
  async : Bool
deriving DecidableEq, Repr

/-- One deferred unit: the arguments bound onto `executeHandler` by
`deferExecution(executeHandler.bind(null, subscriber, topic, data, options))`. -/
structure Pending where
  token : Nat
  topic : String
  data : JsVal
  options : Options
deriving DecidableEq, Repr

/-- Ghost record of one actual handler call. -/
structure CallRecord where
  handler : Nat
  topic : String
  data : JsVal
deriving DecidableEq, Repr

/-- A node of the subscription tree `subsTree`.  In the source a node is a
`Map` with the optional keys `subscribers` (a `Map` from token to the
subscriber object) and `topics` (a `Map` from segment to child node);
`Node.mk s t` models that `Map`, whose JS `size` is the number of `some`
fields.  The trie stores subscriber tokens; the registry is the source of
truth for the record itself (in the source both hold the same object). -/
inductive Node where
  | mk : Option (List Nat) → Option (List (String × Node)) → Node

/-- The `subscribers` field of a node. -/
def Node.subscribers : Node → Option (List Nat)
  | Node.mk s _ => s

/-- The `topics` field of a node. -/
def Node.topics : Node → Option (List (String × Node))
  | Node.mk _ t => t

/-- JS `Map.size` of the node `Map` (counts the present keys). -/
def nodeSize (n : Node) : Nat :=
  (if n.subscribers.isSome then 1 else 0) + (if n.topics.isSome then 1 else 0)

/-- `Map.get` on a segment-keyed child map. -/
def childGet (cs : List (String × Node)) (k : String) : Option Node :=
  match cs with
  | [] => none
  | (s, n) :: rest => if s = k then some n else childGet rest k

/-- `Map.set` on a segment-keyed child map: update in place if the key is
present (keeping its position), otherwise append. -/
def childSet (cs : List (String × Node)) (k : String) (v : Node) : List (String × Node) :=
  match cs with
  | [] => [(k, v)]
  | (s, n) :: rest => if s = k then (s, v) :: rest else (s, n) :: childSet rest k v

/-- `Map.delete` on a segment-keyed child map. -/
def childDelete (cs : List (String × Node)) (k : String) : List (String × Node) :=
  match cs with
  | [] => []
  | (s, n) :: rest => if s = k then rest else (s, n) :: childDelete rest k

/-- `Map.set` on a token-keyed subscriber set (tokens are the keys; the
value is the shared subscriber object, so only key membership matters). -/
def setToken (l : List Nat) (t : Nat) : List Nat :=
  if t ∈ l then l else l ++ [t]

/-- `Map.delete` on a token-keyed subscriber set. -/
def eraseToken (l : List Nat) (t : Nat) : List Nat :=
  match l with
  | [] => []
  | x :: rest => if x = t then rest else x :: eraseToken rest t

/-- `Map.get` on the token-keyed registry. -/
def regGet (reg : List (Nat × Subscriber)) (t : Nat) : Option Subscriber :=
  match reg with
  | [] => none
  | (k, s) :: rest => if k = t then some s else regGet rest t

/-- `Map.set` on the token-keyed registry. -/
def regSet (reg : List (Nat × Subscriber)) (t : Nat) (s : Subscriber) :
    List (Nat × Subscriber) :=
  match reg with
  | [] => [(t, s)]
  | (k, s0) :: rest => if k = t then (k, s) :: rest else (k, s0) :: regSet rest t s

/-- `Map.delete` on the token-keyed registry. -/
def regDelete (reg : List (Nat × Subscriber)) (t : Nat) : List (Nat × Subscriber) :=
  match reg with
  | [] => []
  | (k, s) :: rest => if k = t then rest else (k, s) :: regDelete rest t

/-- `Map.get` on the topic-keyed persistent message store. -/
def pmGet (pms : List (String × PersistentMessage)) (k : String) :
    Option PersistentMessage :=
  match pms with
  | [] => none
  | (s, m) :: rest => if s = k then some m else pmGet rest k

/-- `Map.set` on the topic-keyed persistent message store (a later persist
to the same topic overwrites in place). -/
def pmSet (pms : List (String × PersistentMessage)) (k : String)
    (m : PersistentMessage) : List (String × PersistentMessage) :=
  match pms with
  | [] => [(k, m)]
  | (s, m0) :: rest => if s = k then (s, m) :: rest else (s, m0) :: pmSet rest k m

/-- `Map.delete` on the topic-keyed persistent message store. -/
def pmDelete (pms : List (String × PersistentMessage)) (k : String) :
    List (String × PersistentMessage) :=
  match pms with
  | [] => []
  | (s, m) :: rest => if s = k then rest else (s, m) :: pmDelete rest k

/-- The whole module state: global configuration, token counter, registry
`subscrs`, tree `subsTree`, store `persistentMessages`, plus the deferred
queue and the two ghost observation logs. -/
structure PubState where
  globalOptions : GlobalOptions
  tokenCounter : Nat
  subscrs : List (Nat × Subscriber)
  subsTree : Node
  persistentMessages : List (String × PersistentMessage)
  pending : List Pending
  callLog : List CallRecord
  consoleErrors : List String

/-- The module's initial state (`globalOptions` as in the source; the
counter starts at `-1` and is pre-incremented, which we model as a `Nat`
counter holding the next token, starting at `0`). -/
def initState : PubState :=
  { globalOptions := { async := true, handleExceptions := false, lenientUnsubscribe := false }
    tokenCounter := 0
    subscrs := []
    subsTree := Node.mk none none
    persistentMessages := []
    pending := []
    callLog := []
    consoleErrors := [] }

/-- `topic.split('/')` on the character level: splitting on `/` always
yields at least one (possibly empty) segment. -/
def splitSegs : List Char → List String
  | [] => [""]
  | c :: r =>
    if c = '/' then "" :: splitSegs r
    else
      match splitSegs r with
      | [] => [""]
      | seg :: rest => (c.toString ++ seg) :: rest

/-- `topic.split('/')`. -/
def splitTopic (s : String) : List String :=
  splitSegs s.toList

/-- `topic.indexOf('*') > -1`: the topic contains a `*` character. -/
def topicHasStar (s : String) : Bool :=
  s.toList.contains '*'

/-- Evaluation of a subscriber's `condition` against the published payload
and the original topic, exactly as in `findSubscribers`: the argument
order follows `options.topicArg`, and only a return value of exactly
`true` passes (`condition(...) === true`). -/
def condPasses (cenv : CEnv) (sub : Subscriber) (data : JsVal) (originalTopic : String) : Bool :=
  match sub.options.condition with
  | none => true
  | some c =>
    if sub.options.topicArg = some true
    then cenv c (JsVal.str originalTopic) data == JsVal.bool true
    else cenv c data (JsVal.str originalTopic) == JsVal.bool true

/-- The per-node collection loop of `findSubscribers`: iterate this node's
subscriber set in insertion order; for each subscriber whose condition
passes, push a candidate (`position` is the array length after the push,
i.e. one-based discovery index; `priority` is `options.priority || 0`;
`async` is `Boolean(options.async || subscriber.options.async ||
globalOptions.async)`, assigned but never read by the dispatcher). -/
def collectNode (cenv : CEnv) (reg : List (Nat × Subscriber)) (g : GlobalOptions)
    (data : JsVal) (options : Options) (originalTopic : String)
    (toks : List Nat) (acc : List Candidate) : List Candidate :=
  match toks with
  | [] => acc
  | t :: rest =>
    let acc :=
      match regGet reg t with
      | none => acc
      | some sub =>
        if condPasses cenv sub data originalTopic then
          acc ++ [{ token := t
                    priority := sub.options.priority.getD 0
                    position := acc.length + 1
                    async := (options.async == some true)
                      || (sub.options.async == some true) || g.async }]
        else acc
    collectNode cenv reg g data options originalTopic rest acc

/-- `findSubscribers`, the recursive matcher.  At the current node every
directly-held subscriber is collected regardless of remaining segments;
then, if segments remain and the node has children, it recurses first
into the `*` child and then into the literal-segment child, consuming one
segment.  (The source's trailing `topicArray.shift()` mutates a local
array after both recursive calls already received slices of it and has no
observable effect; it is omitted here.) -/
def findSubscribers (cenv : CEnv) (reg : List (Nat × Subscriber)) (g : GlobalOptions) :
    List String → JsVal → Options → Node → String → List Candidate → List Candidate
  | [], data, options, node, originalTopic, handlerArray =>
    collectNode cenv reg g data options originalTopic
      (node.subscribers.getD []) handlerArray
  | seg :: rest, data, options, node, originalTopic, handlerArray =>
    let handlerArray :=
      collectNode cenv reg g data options originalTopic
        (node.subscribers.getD []) handlerArray
    match node.topics with
    | none => handlerArray
    | some cs =>
      let subscription := childGet cs seg
      let subscriptionWild := childGet cs "*"
      let h1 :=
        match subscriptionWild with
        | some w => findSubscribers cenv reg g rest data options w originalTopic handlerArray
        | none => handlerArray
      match subscription with
      | some c => findSubscribers cenv reg g rest data options c originalTopic h1
      | none => h1

/-- The comparator of `publish`'s sort, as a relation: higher priority
first, ties by ascending `position`. -/
def candR (a b : Candidate) : Prop :=
  a.priority > b.priority ∨ (a.priority = b.priority ∧ a.position ≤ b.position)

instance : DecidableRel candR := fun a b => by
  unfold candR; infer_instance

instance : IsTotal Candidate candR := by
  constructor
  intro a b
  unfold candR
  omega

instance : IsTrans Candidate candR := by
  constructor
  intro a b c hab hbc
  unfold candR at *
  omega

/-- The sort in `publish`.  The source sorts with a comparator returning
`position` difference on equal priorities and `±1` otherwise; since
`position`s of distinct candidates are distinct, this comparator is a
total order and any correct sort (the ECMAScript sort is stable) produces
the unique `candR`-sorted permutation, modelled by insertion sort. -/
def sortCands (l : List Candidate) : List Candidate :=
  List.insertionSort candR l

/-- `addSubscription`: descend the tree along the path, creating child
nodes as needed; at the final segment add the subscriber's token to that
node's subscriber set.  (The source is only called with the non-empty
array `topic.split('/')`; the `[]` case is unreachable and returns the
node unchanged.) -/
def addSubscription : List String → Nat → Node → Node
  | [], _, node => node
  | topic :: rest, tok, Node.mk subs topics =>
    let cs := topics.getD []
    let child := (childGet cs topic).getD (Node.mk none none)
    let child1 :=
      match rest with
      | [] =>
        Node.mk (some (setToken (child.subscribers.getD []) tok)) child.topics
      | _ :: _ => addSubscription rest tok child
    Node.mk subs (some (childSet cs topic child1))

/-- The two cleanup lines at the end of every `removeSubscription` frame:
drop the child's now-empty `topics` key, write the child back, and drop
the child itself from this node's child map when its `Map` became empty. -/
def removeCleanup (subs : Option (List Nat)) (cs : List (String × Node))
    (topic : String) (child1 : Node) : Node :=
  let child2 :=
    match child1 with
    | Node.mk s2 t2 =>
      Node.mk s2 (match t2 with
        | some [] => none
        | other => other)
  let cs2 := childSet cs topic child2
  let cs3 := if nodeSize child2 = 0 then childDelete cs2 topic else cs2
  Node.mk subs (some cs3)

/-- `removeSubscription`: descend to the final segment's node, remove the
token from its subscriber set (dropping the set when it empties), then on
the way back run the cleanup lines of each frame.  A missing path or a
missing subscriber set makes the source dereference `undefined` and
throw; that crash is modelled by `none` (no reachable well-formed state
triggers it, so the partially-mutated crash state is not reconstructed). -/
def removeSubscription : List String → Nat → Node → Option Node
  | [], _, _ => none
  | topic :: rest, tok, Node.mk subs topics => do
    let cs ← topics
    let child ← childGet cs topic
    let child1 ←
      match rest with
      | [] => do
        let l ← child.subscribers
        let l1 := eraseToken l tok
        pure (Node.mk (if l1.isEmpty then none else some l1) child.topics)
      | _ :: _ => removeSubscription rest tok child
    pure (removeCleanup subs cs topic child1)

/-- Result of `publish`: the returned boolean, or a propagated exception. -/
inductive PubResult where
  | ok : Bool → PubResult
  | thrown : String → PubResult
deriving DecidableEq, Repr

/-- Result of `subscribe`: the new token, or a propagated exception. -/
inductive SubRes where
  | ok : Nat → SubRes
  | thrown : String → SubRes
deriving DecidableEq, Repr

/-- Result of `executeHandler`: the value it returns to its caller, or a
propagated exception. -/
inductive ExecResult where
  | ret : JsVal → ExecResult
  | thrown : String → ExecResult
deriving DecidableEq, Repr

/-- The first argument of `unsubscribe`: a token, an array of tokens, or a
topic string.  (The source distinguishes these by runtime type; a numeric
topic string would be taken for a token, which no claim exercises.) -/
inductive UnsubArg where
  | tok : Nat → UnsubArg
  | toks : List Nat → UnsubArg
  | top : String → UnsubArg
deriving DecidableEq, Repr

/-- The second argument of `unsubscribe`: either a handler or the lenient
boolean (`handler === Boolean(handler)` routes booleans to leniency). -/
inductive HandlerArg where
  | fn : Nat → HandlerArg
  | flag : Bool → HandlerArg
deriving DecidableEq, Repr

/-- The inner `unsubscribeToken` closure: look the token up in the
registry (missing: lenient no-op or throw), then remove from tree and
registry.  `none` from `removeSubscription` models the crash on an
inconsistent tree, unreachable from well-formed states. -/
def unsubscribeToken (lenient : Bool) (t : Nat) (st : PubState) :
    PubState × Option String :=
  match regGet st.subscrs t with
  | none =>
    if lenient then (st, none)
    else (st, some "Unsubscribe failed. Did not find subscriber for token.")
  | some sub =>
    match removeSubscription (splitTopic sub.topic) t st.subsTree with
    | none => (st, some "TypeError")
    | some tree1 =>
      ({ st with subsTree := tree1, subscrs := regDelete st.subscrs t }, none)

/-- The `forEach` over a token array: an exception from `unsubscribeToken`
stops the iteration and propagates; removals already made stay. -/
def unsubTokens (lenient : Bool) : List Nat → PubState → PubState × Option String
  | [], st => (st, none)
  | t :: ts, st =>
    match unsubscribeToken lenient t st with
    | (st1, some e) => (st1, some e)
    | (st1, none) => unsubTokens lenient ts st1

/-- The linear registry scan of topic+handler unsubscribe: first record
whose handler and topic both match. -/
def scanTopicHandler (topicStr : String) (h : Nat) :
    List (Nat × Subscriber) → Option Subscriber
  | [] => none
  | (_, sub) :: rest =>
    if sub.handler = h ∧ sub.topic = topicStr then some sub
    else scanTopicHandler topicStr h rest

/-- `unsubscribe`.  Leniency resolves from a boolean second argument, else
the third argument, else the global default.  Note the topic+handler
branch: when the scan finds no record it simply falls through without
throwing (and a boolean second argument reaches the scan as the handler,
matching nothing). -/
def unsubscribe (arg : Option UnsubArg) (harg : Option HandlerArg)
    (larg : Option Bool) (st : PubState) : PubState × Option String :=
  let lenientArg : Option Bool :=
    match harg with
    | some (HandlerArg.flag b) => some b
    | _ => larg
  let lenient := lenientArg.getD st.globalOptions.lenientUnsubscribe
  match arg with
  | none =>
    if lenient then (st, none) else (st, some "Unsubscribe failed. No Arguments specified.")
  | some (UnsubArg.toks ts) => unsubTokens lenient ts st
  | some (UnsubArg.tok t) => unsubscribeToken lenient t st
  | some (UnsubArg.top topicStr) =>
    match harg with
    | none =>
      if lenient then (st, none)
      else (st, some "Unsubscribe failed. No handler for topic based unsubscribe specified.")
    | some (HandlerArg.flag _) => (st, none)
    | some (HandlerArg.fn h) =>
      match scanTopicHandler topicStr h st.subscrs with
      | none => (st, none)
      | some sub =>
        match removeSubscription (splitTopic topicStr) sub.token st.subsTree with
        | none => (st, some "TypeError")
        | some tree1 =>
          ({ st with subsTree := tree1, subscrs := regDelete st.subscrs sub.token }, none)

/-- The actual handler call at the end of `executeHandler`: argument order
per `options.topicArg`; if the effective guard (`options.handleExceptions
!== true && globalOptions.handleExceptions !== true`) says "do not
handle", an exception propagates; otherwise it is caught, reported to the
diagnostic sink, and `undefined` is returned.  The ghost `callLog` records
the call in either case. -/
def callHandler (henv : HEnv) (st : PubState) (sub : Subscriber) (topic : String)
    (data : JsVal) (options : Options) : PubState × ExecResult :=
  let out :=
    if sub.options.topicArg = some true
    then henv sub.handler (JsVal.str topic) data
    else henv sub.handler data (JsVal.str topic)
  let st := { st with callLog := st.callLog ++ [{ handler := sub.handler, topic := topic, data := data }] }
  if options.handleExceptions ≠ some true ∧ st.globalOptions.handleExceptions ≠ true then
    match out with
    | HandlerOutcome.ret v => (st, ExecResult.ret v)
    | HandlerOutcome.throw e => (st, ExecResult.thrown e)
  else
    match out with
    | HandlerOutcome.ret v => (st, ExecResult.ret v)
    | HandlerOutcome.throw e =>
      ({ st with consoleErrors := st.consoleErrors ++ [e] }, ExecResult.ret JsVal.undef)

/-- `executeHandler`: return `undefined` without side effects if the token
left the registry meanwhile; otherwise decrement a tracked positive
`invocations` budget, unsubscribing the subscriber immediately when the
budget falls below one (the current invocation still calls the handler);
finally perform the guarded or unguarded handler call. -/
def executeHandler (henv : HEnv) (st : PubState) (token : Nat) (topic : String)
    (data : JsVal) (options : Options) : PubState × ExecResult :=
  match regGet st.subscrs token with
  | none => (st, ExecResult.ret JsVal.undef)
  | some sub0 =>
    match sub0.options.invocations with
    | some n =>
      if n > 0 then
        let sub1 : Subscriber :=
          { sub0 with options := { sub0.options with invocations := some (n - 1) } }
        let st1 := { st with subscrs := regSet st.subscrs token sub1 }
        if n - 1 < 1 then
          match unsubscribe (some (UnsubArg.tok token)) none none st1 with
          | (st2, some e) => (st2, ExecResult.thrown e)
          | (st2, none) => callHandler henv st2 sub1 topic data options
        else callHandler henv st1 sub1 topic data options
      else callHandler henv st sub0 topic data options
    | none => callHandler henv st sub0 topic data options

/-- The synchronous dispatch loop of `publish`: execute each candidate in
order; a propagated exception aborts the loop; a handler returning exactly
`false` while `options.cancelable !== false` stops the remaining
candidates and makes `publish` return `false`. -/
def publishLoop (henv : HEnv) (topic : String) (data : JsVal) (options : Options) :
    PubState → List Candidate → PubState × PubResult
  | st, [] => (st, PubResult.ok true)
  | st, c :: rest =>
    match executeHandler henv st c.token topic data options with
    | (st1, ExecResult.thrown e) => (st1, PubResult.thrown e)
    | (st1, ExecResult.ret v) =>
      if v = JsVal.bool false ∧ options.cancelable ≠ some false
      then (st1, PubResult.ok false)
      else publishLoop henv topic data options st1 rest

/-- `publish`: store a persistent message if requested, reject wildcard
topics, match, sort, then either schedule every candidate in order
(asynchronous: returns `true` immediately) or run the synchronous loop. -/
def publish (henv : HEnv) (cenv : CEnv) (topic : String) (data : JsVal)
    (options : Options) (st : PubState) : PubState × PubResult :=
  let msg : PersistentMessage := { data := data, options := options }
  let st :=
    if options.persist = some true
    then { st with persistentMessages := pmSet st.persistentMessages topic msg }
    else st
  if topicHasStar topic then
    (st, PubResult.thrown "Publish topic cannot contain any wildcards.")
  else
    let matched := findSubscribers cenv st.subscrs st.globalOptions
      (splitTopic topic) data options st.subsTree topic []
    let sorted := sortCands matched
    let async := options.async.getD st.globalOptions.async
    if async then
      let units := sorted.map fun c =>
        ({ token := c.token, topic := topic, data := data, options := options } : Pending)
      ({ st with pending := st.pending ++ units }, PubResult.ok true)
    else
      publishLoop henv topic data options st sorted

/-- Split a character list at its first `*`, as `topic.replace('*', ...)`
does (only the first occurrence is replaced). -/
def splitFirstStar : List Char → Option (List Char × List Char)
  | [] => none
  | c :: cs =>
    if c = '*' then some ([], cs)
    else
      match splitFirstStar cs with
      | some (pre, post) => some (c :: pre, post)
      | none => none

/-- Strip a literal leading character sequence; `none` if it does not lead. -/
def dropLead : List Char → List Char → Option (List Char)
  | [], ks => some ks
  | _ :: _, [] => none
  | p :: ps, k :: ks => if p = k then dropLead ps ks else none

/-- Acceptance of the optional regex suffix `(/.+)?$`: the remaining
characters are empty, or a `/` followed by at least one character. -/
def tailOK : List Char → Bool
  | [] => true
  | '/' :: (_ :: _) => true
  | _ => false

/-- Does `rest` decompose as `post ++ tl` with `tailOK tl`? -/
def endMatch (post rest : List Char) : Bool :=
  match dropLead post rest with
  | some tl => tailOK tl
  | none => false

/-- Acceptance of `(.+)post(/.+)?$` on `rest`: some non-empty piece
(which, as in the regex, may itself contain `/`) followed by `post` and
an accepted tail. -/
def starScan (post : List Char) : List Char → Bool
  | [] => false
  | _ :: ks => endMatch post ks || starScan post ks

/-- The persistent-replay topic test of `subscribe`: acceptance of
`new RegExp('^' + topic.replace('*', '(.+)') + '(/.+)?$')` on the stored
key.  Regex acceptance is existence of a decomposition; topic characters
other than the first `*` are treated literally (the claims use no other
regex metacharacters, and `.` in the pattern matches `/`). -/
def replayKeyMatches (subTopic key : String) : Bool :=
  let ks := key.toList
  match splitFirstStar subTopic.toList with
  | none =>
    match dropLead subTopic.toList ks with
    | some tl => tailOK tl
    | none => false
  | some (pre, post) =>
    match dropLead pre ks with
    | some rest => starScan post rest
    | none => false

/-- The persistent-message replay loop at the end of `subscribe`: for each
stored message (in store order) whose key matches the subscription topic,
deliver to the one new subscriber — deferred when the *stored message's*
`async` snapshot (else the global default) says so, else synchronously
through `executeHandler` with the *subscribe call's* options; a handler
returning exactly `false` breaks the loop only when the subscribe call's
`options.cancelable === true`; a propagated exception escapes `subscribe`. -/
def replayLoop (henv : HEnv) (subTopic : String) (token : Nat) (subOpts : Options) :
    List (String × PersistentMessage) → PubState → PubState × SubRes
  | [], st => (st, SubRes.ok token)
  | (key, pm) :: rest, st =>
    if replayKeyMatches subTopic key then
      let asy := pm.options.async.getD st.globalOptions.async
      if asy then
        let unit : Pending := { token := token, topic := key, data := pm.data, options := subOpts }
        replayLoop henv subTopic token subOpts rest { st with pending := st.pending ++ [unit] }
      else
        match executeHandler henv st token key pm.data subOpts with
        | (st1, ExecResult.thrown e) => (st1, SubRes.thrown e)
        | (st1, ExecResult.ret v) =>
          if v = JsVal.bool false ∧ subOpts.cancelable = some true
          then (st1, SubRes.ok token)
          else replayLoop henv subTopic token subOpts rest st1
    else replayLoop henv subTopic token subOpts rest st

/-- Does the character list contain the pattern as a contiguous run? -/
def hasSub (pat : List Char) : List Char → Bool
  | [] => pat.isEmpty
  | c :: cs => (dropLead pat (c :: cs)).isSome || hasSub pat cs

/-- Does the topic string contain the substring `undefined`
(`topic.includes('undefined')`)? -/
def hasUndefinedSub (topic : String) : Bool :=
  hasSub "undefined".toList topic.toList

/-- `subscribe`: allocate the token (the counter advances even when
validation then fails), validate, insert into registry and tree, then
optionally replay persistent messages. -/
def subscribe (henv : HEnv) (topic : Option String) (handler : Option Nat)
    (options : Options) (st : PubState) : PubState × SubRes :=
  let token := st.tokenCounter
  let st := { st with tokenCounter := token + 1 }
  match topic with
  | none => (st, SubRes.thrown "Subscribe failed - undefined Topic.")
  | some topicStr =>
    if hasUndefinedSub topicStr then
      (st, SubRes.thrown "Subscribe failed - found undefined in topic.")
    else
      match handler with
      | none => (st, SubRes.thrown "Subscribe failed - undefined Handler.")
      | some h =>
        let sub : Subscriber := { token := token, topic := topicStr, handler := h, options := options }
        let st :=
          { st with subscrs := regSet st.subscrs token sub
                    subsTree := addSubscription (splitTopic topicStr) token st.subsTree }
        if options.persist ≠ some true then (st, SubRes.ok token)
        else replayLoop henv topicStr token options st.persistentMessages st

/-- The argument object of `configure` (destructured in the source). -/
structure ConfigArgs where
  async : Option Bool := none
  handleExceptions : Option Bool := none
  lenientUnsubscribe : Option Bool := none
deriving DecidableEq, Repr

/-- `configure`: each provided field overwrites the global default; an
absent argument destructures against the `= {}` default and is a no-op.
The `Option String` result is the exception channel of the public API;
`configure` never uses it. -/
def configure (args : Option ConfigArgs) (st : PubState) : PubState × Option String :=
  let a := args.getD {}
  let g0 := st.globalOptions
  let g1 : GlobalOptions :=
    { async := a.async.getD g0.async
      handleExceptions := a.handleExceptions.getD g0.handleExceptions
      lenientUnsubscribe := a.lenientUnsubscribe.getD g0.lenientUnsubscribe }
  ({ st with globalOptions := g1 }, none)

/-- `removePersistentMessage`: delete the exact-match store entry. -/
def removePersistentMessage (topic : String) (st : PubState) : PubState :=
  { st with persistentMessages := pmDelete st.persistentMessages topic }

/-- Specification-level matching relation of §4.1: the node of subscription
path `S` is visited by the traversal for published path `P` exactly when
`S` consumes a leading portion of `P` with each subscription segment equal
to the published segment or to `*`. -/
def wildMatch : List String → List String → Bool
  | [], _ => true
  | _ :: _, [] => false
  | s :: ss, p :: ps => (s = p ∨ s = "*") && wildMatch ss ps

/-- The tokens held by the node at an exact path of the tree (empty when
the path does not exist or the node holds no subscriber set). -/
def tokensAtPath : Node → List String → List Nat
  | node, [] => node.subscribers.getD []
  | node, s :: rest =>
    match childGet (node.topics.getD []) s with
    | some c => tokensAtPath c rest
    | none => []

/-- The node stored at an exact path of the tree, if the path exists. -/
def nodeAt : Node → List String → Option Node
  | n, [] => some n
  | n, s :: rest =>
    match childGet (n.topics.getD []) s with
    | some c => nodeAt c rest
    | none => none

/-- Build a tree from a list of token/topic subscriptions, as the
successive `addSubscription` calls of `subscribe` do. -/
def buildTrie (subs : List (Nat × String)) : Node :=
  subs.foldl (fun n p => addSubscription (splitTopic p.2) p.1 n) (Node.mk none none)

/-- Build the matching registry: each token mapped to a condition-free
subscriber record on its topic. -/
def mkReg (subs : List (Nat × String)) : List (Nat × Subscriber) :=
  subs.map fun p => (p.1, { token := p.1, topic := p.2, handler := p.1, options := {} })

/-- The tokens of a candidate list. -/
def tokensOf (l : List Candidate) : List Nat := l.map Candidate.token

/-- A `subscribers` field that respects eager pruning: absent, or a
non-empty set. -/
def optListNonempty : Option (List Nat) → Bool
  | none => true
  | some l => !l.isEmpty

mutual

/-- The eager-pruning invariant for a node stored as a child in the tree:
its subscriber set, when present, is non-empty; its child map, when
present, is non-empty and all children again satisfy the invariant; and
the node itself is non-empty — so no node with an empty subscriber set
and an empty child map exists at or anywhere below a tidy child. -/
def tidyNode : Node → Bool
  | Node.mk subs topics =>
    optListNonempty subs && tidyTopics topics && (subs.isSome || topics.isSome)

/-- The invariant for a `topics` field of a non-root node: absent, or a
non-empty child map of tidy children. -/
def tidyTopics : Option (List (String × Node)) → Bool
  | none => true
  | some cs => !cs.isEmpty && tidyChildren cs

/-- The invariant for a child map: every child node is tidy. -/
def tidyChildren : List (String × Node) → Bool
  | [] => true
  | (_, c) :: rest => tidyNode c && tidyChildren rest

end

/-- The invariant for the tree root: the root `Map` is permanent (it is
the module-level `subsTree`), so its `topics` map may be empty, but every
child must be tidy and its subscriber set, when present, non-empty. -/
def tidyRoot : Node → Bool
  | Node.mk subs topics =>
    optListNonempty subs && tidyChildren (topics.getD [])

/-- Registry/tree consistency: every registered subscriber's token is held
by the tree node at its own topic path. -/
def regTreeConsistent (st : PubState) : Bool :=
  st.subscrs.all fun p => p.1 ∈ tokensAtPath st.subsTree (splitTopic p.2.topic)

/-- Well-formedness of a module state: the tree satisfies the pruning
invariant, the registry and tree agree, registry keys match their
records' tokens, keys are unique, and every key is below the counter (so
a fresh token never collides). -/
def stateWF (st : PubState) : Bool :=
  tidyRoot st.subsTree && regTreeConsistent st &&
    (st.subscrs.all fun p => p.2.token = p.1) &&
    (st.subscrs.map Prod.fst).Nodup &&
    (st.subscrs.all fun p => p.1 < st.tokenCounter)

/-- The per-subscriber admission gate of `findSubscribers`: the token must
be registered and its condition (if any) must return exactly `true`. -/
def gateB (cenv : CEnv) (reg : List (Nat × Subscriber)) (data : JsVal)
    (originalTopic : String) (t : Nat) : Bool :=
  match regGet reg t with
  | none => false
  | some sub => condPasses cenv sub data originalTopic

/-- Token-level view of the matcher: the tokens `findSubscribers` appends,
without the position/priority bookkeeping. -/
def findTokens (gate : Nat → Bool) : List String → Node → List Nat
  | [], node => (node.subscribers.getD []).filter gate
  | seg :: rest, node =>
    (node.subscribers.getD []).filter gate ++
      (match node.topics with
       | none => []
       | some cs =>
         (match childGet cs "*" with
          | some c => findTokens gate rest c
          | none => []) ++
         (match childGet cs seg with
          | some c => findTokens gate rest c
          | none => []))

/-- Claim C4's replay loop, written from the claim: each matching stored
message is replayed using that stored message's own snapshot of
publish-time options to decide sync/async *and cancellation*, exactly as
if that message were being published again at only this subscriber (so
the snapshot is also what `executeHandler` receives, and the publish
cancellation rule `result === false && cancelable !== false` applies). -/
def replaySpecC4 (henv : HEnv) (subTopic : String) (token : Nat) :
    List (String × PersistentMessage) → PubState → PubState × SubRes
  | [], st => (st, SubRes.ok token)
  | (key, pm) :: rest, st =>
    if replayKeyMatches subTopic key then
      let asy := pm.options.async.getD st.globalOptions.async
      if asy then
        let unit : Pending := { token := token, topic := key, data := pm.data, options := pm.options }
        replaySpecC4 henv subTopic token rest { st with pending := st.pending ++ [unit] }
      else
        match executeHandler henv st token key pm.data pm.options with
        | (st1, ExecResult.thrown e) => (st1, SubRes.thrown e)
        | (st1, ExecResult.ret v) =>
          if v = JsVal.bool false ∧ pm.options.cancelable ≠ some false
          then (st1, SubRes.ok token)
          else replaySpecC4 henv subTopic token rest st1
    else replaySpecC4 henv subTopic token rest st

/-- Claim C4 as amended, written from the amended wording: sync/async for
each matching stored message is decided by that message's own `async`
snapshot (else the global default), but delivery runs `executeHandler`
with the *subscribe call's* options, and the loop stops early only when a
synchronous replay returns exactly `false` and the subscribe call's
`cancelable` is exactly `true`. -/
def replayAmendedC4 (henv : HEnv) (subTopic : String) (token : Nat) (subOpts : Options) :
    List (String × PersistentMessage) → PubState → PubState × SubRes
  | [], st => (st, SubRes.ok token)
  | (key, pm) :: rest, st =>
    if replayKeyMatches subTopic key then
      if pm.options.async.getD st.globalOptions.async then
        let unit : Pending := { token := token, topic := key, data := pm.data, options := subOpts }
        replayAmendedC4 henv subTopic token subOpts rest { st with pending := st.pending ++ [unit] }
      else
        match executeHandler henv st token key pm.data subOpts with
        | (st1, ExecResult.thrown e) => (st1, SubRes.thrown e)
        | (st1, ExecResult.ret v) =>
          if v = JsVal.bool false ∧ subOpts.cancelable = some true
          then (st1, SubRes.ok token)
          else replayAmendedC4 henv subTopic token subOpts rest st1
    else replayAmendedC4 henv subTopic token subOpts rest st



/-- Global options with `handleExceptions := true` for the C3 failing
input (synchronous delivery, lenient off). -/
def c3Global : GlobalOptions :=
  { async := false, handleExceptions := true, lenientUnsubscribe := false }

/-- A handler environment whose every handler throws. -/
def throwingHenv : HEnv := fun _ _ _ => HandlerOutcome.throw "boom"

/-- The C3 failing input: one subscriber on `t` registered while the
global default `handleExceptions` is `true`. -/
def c3State : PubState :=
  (subscribe throwingHenv (some "t") (some 9) {}
    { initState with globalOptions := c3Global }).1

/-- The publish options of the C3 failing input: the call explicitly
passes `handleExceptions: false` (and sync delivery). -/
def c3Options : Options := { async := some false, handleExceptions := some false }

/-- The C5 failing input: one subscriber on topic `a` with handler `5`,
lenient mode disabled (the initial global default). -/
def c5State : PubState :=
  (subscribe (fun _ _ _ => HandlerOutcome.ret JsVal.undef) (some "a") (some 5) {}
    initState).1

/-- A handler environment whose every handler returns exactly `false`. -/
def falseHenv : HEnv := fun _ _ _ => HandlerOutcome.ret (JsVal.bool false)

/-- The C4 counterexample's first stored message: payload `1`, published
with `cancelable: false` in its snapshot. -/
def c4Pm1 : PersistentMessage :=
  { data := JsVal.num 1, options := { cancelable := some false } }

/-- The C4 counterexample's second stored message: payload `2`, default
options snapshot. -/
def c4Pm2 : PersistentMessage := { data := JsVal.num 2, options := {} }

/-- The C4 counterexample state: synchronous globals and two stored
persistent messages, on `t` and on `t/a`, both matching a subscription
to `t`. -/
def c4State : PubState :=
  { initState with
      globalOptions := { async := false, handleExceptions := false, lenientUnsubscribe := false }
      persistentMessages := [("t", c4Pm1), ("t/a", c4Pm2)] }

/-- The C4 subscribe options: replay requested, `cancelable: true`. -/
def c4SubOpts : Options := { persist := some true, cancelable := some true }

/-- The subscriber record the C4 subscribe call inserts. -/
def c4Sub : Subscriber := { token := 0, topic := "t", handler := 5, options := c4SubOpts }

/-- The C4 state just after insertion, i.e. the state the replay loop
starts from. -/
def c4Inserted : PubState :=
  { c4State with
      tokenCounter := 1
      subscrs := regSet c4State.subscrs 0 c4Sub
      subsTree := addSubscription (splitTopic "t") 0 c4State.subsTree }

/-- The subscriber record of the C7 scenario: token `0`, an invocation
budget of `m` remaining. -/
def invSub (topic : String) (h : Nat) (m : Int) : Subscriber :=
  { token := 0, topic := topic, handler := h, options := { invocations := some m } }

/-- The state after `subscribe(topic, h, {invocations: 1})` on the
initial state. -/
def c7Inserted (topic : String) (h : Nat) : PubState :=
  { initState with
      tokenCounter := 1
      subscrs := [(0, invSub topic h 1)]
      subsTree := addSubscription (splitTopic topic) 0 (Node.mk none none) }

/-- The state after the single budgeted subscriber has been unsubscribed
again: empty registry, fully pruned tree. -/
def drainedState : PubState :=
  { initState with
      tokenCounter := 1
      subscrs := []
      subsTree := Node.mk none (some []) }

/-- A subscriber record with its invocation budget replaced by `m`, as
`subscriber.options.invocations -= 1` leaves it. -/
def decSub (sub : Subscriber) (m : Int) : Subscriber :=
  { sub with options := { sub.options with invocations := some m } }

/-- The state after the registry entry for `tok` has been overwritten
with the decremented record (the source mutates the shared object). -/
def decState (st : PubState) (tok : Nat) (sub : Subscriber) (m : Int) : PubState :=
  { st with subscrs := regSet st.subscrs tok (decSub sub m) }

/-- The deferred units an asynchronous publish schedules for a candidate
list, in list order. -/
def asyncUnits (topic : String) (data : JsVal) (options : Options)
    (cands : List Candidate) : List Pending :=
  cands.map fun c =>
    ({ token := c.token, topic := topic, data := data, options := options } : Pending)

theorem tokensOf_append (a b : List Candidate) :
    tokensOf (a ++ b) = tokensOf a ++ tokensOf b := by
  simp [tokensOf]

theorem tokensOf_collectNode (cenv : CEnv) (reg : List (Nat × Subscriber))
    (g : GlobalOptions) (data : JsVal) (options : Options) (topic : String) :
    ∀ (toks : List Nat) (acc : List Candidate),
      tokensOf (collectNode cenv reg g data options topic toks acc) =
        tokensOf acc ++ toks.filter (gateB cenv reg data topic) := by
  intro toks
  induction toks with
  | nil => intro acc; simp [collectNode]
  | cons t rest ih =>
    intro acc
    rw [collectNode, List.filter_cons]
    cases h : regGet reg t with
    | none =>
      have hg : gateB cenv reg data topic t = false := by simp [gateB, h]
      simp only [hg, Bool.false_eq_true, if_false]
      simp [ih]
    | some sub =>
      have hg : gateB cenv reg data topic t = condPasses cenv sub data topic := by
        simp [gateB, h]
      by_cases hc : condPasses cenv sub data topic
      · simp only [hg, hc, if_true, ih, tokensOf_append]
        simp [tokensOf]
      · simp only [hg, hc, Bool.false_eq_true, if_false]
        simp [hc, ih]

theorem tokensOf_findSubscribers (cenv : CEnv) (reg : List (Nat × Subscriber))
    (g : GlobalOptions) (data : JsVal) (options : Options) (topic : String) :
    ∀ (P : List String) (node : Node) (acc : List Candidate),
      tokensOf (findSubscribers cenv reg g P data options node topic acc) =
        tokensOf acc ++ findTokens (gateB cenv reg data topic) P node := by
  intro P
  induction P with
  | nil =>
    intro node acc
    cases node with
    | mk subs topics =>
      rw [findSubscribers, findTokens]
      simp only [Node.topics, Node.subscribers]
      rw [tokensOf_collectNode]
  | cons seg rest ih =>
    intro node acc
    cases node with
    | mk subs topics =>
      rw [findSubscribers, findTokens]
      simp only [Node.topics, Node.subscribers]
      cases topics with
      | none => rw [tokensOf_collectNode]; simp
      | some cs =>
        cases hw : childGet cs "*" with
        | none =>
          cases hl : childGet cs seg with
          | none => simp only [hw, hl]; rw [tokensOf_collectNode]; simp
          | some c => simp only [hw, hl]; rw [ih, tokensOf_collectNode]; simp
        | some w =>
          cases hl : childGet cs seg with
          | none => simp only [hw, hl]; rw [ih, tokensOf_collectNode]; simp
          | some c => simp only [hw, hl]; rw [ih, ih, tokensOf_collectNode]; simp

theorem mem_findTokens (gate : Nat → Bool) (t : Nat) :
    ∀ (P : List String) (node : Node),
      t ∈ findTokens gate P node ↔
        ∃ S, wildMatch S P = true ∧ t ∈ tokensAtPath node S ∧ gate t = true := by
  intro P
  induction P with
  | nil =>
    intro node
    rw [findTokens]
    constructor
    · intro h
      rw [List.mem_filter] at h
      exact ⟨[], by simp [wildMatch], by simpa [tokensAtPath] using h.1, h.2⟩
    · rintro ⟨S, hS, hmem, hg⟩
      cases S with
      | nil =>
        rw [List.mem_filter]
        exact ⟨by simpa [tokensAtPath] using hmem, hg⟩
      | cons a b => simp [wildMatch] at hS
  | cons seg rest ih =>
    intro node
    rw [findTokens]
    constructor
    · intro h
      rcases List.mem_append.1 h with h1 | h2
      · rw [List.mem_filter] at h1
        exact ⟨[], by simp [wildMatch], by simpa [tokensAtPath] using h1.1, h1.2⟩
      · cases htop : node.topics with
        | none => rw [htop] at h2; simp at h2
        | some cs =>
          rw [htop] at h2
          rcases List.mem_append.1 h2 with h3 | h4
          · cases hw : childGet cs "*" with
            | none => rw [hw] at h3; simp at h3
            | some w =>
              rw [hw] at h3
              rcases (ih w).1 h3 with ⟨S, hS, hmem, hg⟩
              refine ⟨"*" :: S, by simp [wildMatch, hS], ?_, hg⟩
              simpa [tokensAtPath, htop, hw] using hmem
          · cases hl : childGet cs seg with
            | none => rw [hl] at h4; simp at h4
            | some c =>
              rw [hl] at h4
              rcases (ih c).1 h4 with ⟨S, hS, hmem, hg⟩
              refine ⟨seg :: S, by simp [wildMatch, hS], ?_, hg⟩
              simpa [tokensAtPath, htop, hl] using hmem
    · rintro ⟨S, hS, hmem, hg⟩
      cases S with
      | nil =>
        apply List.mem_append.2
        left
        rw [List.mem_filter]
        exact ⟨by simpa [tokensAtPath] using hmem, hg⟩
      | cons a S2 =>
        have haseg : (a = seg ∨ a = "*") ∧ wildMatch S2 rest = true := by
          simpa [wildMatch, Bool.and_eq_true, decide_eq_true_eq] using hS
        apply List.mem_append.2
        right
        rw [tokensAtPath] at hmem
        cases htop : node.topics with
        | none => rw [htop] at hmem; simp [childGet] at hmem
        | some cs =>
          rw [htop] at hmem
          simp only [Option.getD_some] at hmem
          cases hget : childGet cs a with
          | none => rw [hget] at hmem; simp at hmem
          | some c =>
            rw [hget] at hmem
            rcases haseg.1 with rfl | rfl
            · apply List.mem_append.2
              right
              rw [hget]
              exact (ih c).2 ⟨S2, haseg.2, hmem, hg⟩
            · apply List.mem_append.2
              left
              rw [hget]
              exact (ih c).2 ⟨S2, haseg.2, hmem, hg⟩

theorem childGet_childSet_self (cs : List (String × Node)) (k : String) (v : Node) :
    childGet (childSet cs k v) k = some v := by
  induction cs with
  | nil => simp [childSet, childGet]
  | cons p rest ih =>
    obtain ⟨s, n⟩ := p
    by_cases h : s = k
    · subst h; simp [childSet, childGet]
    · simp [childSet, childGet, h, ih]

theorem childGet_childSet_other (cs : List (String × Node)) (k q : String) (v : Node)
    (h : q ≠ k) : childGet (childSet cs k v) q = childGet cs q := by
  induction cs with
  | nil =>
    simp only [childSet, childGet]
    rw [if_neg (fun hh => h hh.symm)]
  | cons p rest ih =>
    obtain ⟨s, n⟩ := p
    by_cases hs : s = k
    · subst hs
      simp only [childSet, if_pos rfl, childGet]
      rw [if_neg (fun hh : s = q => h hh.symm), if_neg (fun hh : s = q => h hh.symm)]
    · simp only [childSet, if_neg hs, childGet]
      by_cases hsq : s = q
      · rw [if_pos hsq, if_pos hsq]
      · rw [if_neg hsq, if_neg hsq, ih]

theorem mem_setToken (l : List Nat) (t t1 : Nat) :
    t1 ∈ setToken l t ↔ t1 ∈ l ∨ t1 = t := by
  unfold setToken
  by_cases h : t ∈ l
  · simp only [h, if_true]
    constructor
    · exact Or.inl
    · rintro (hm | rfl)
      · exact hm
      · exact h
  · simp [h]

theorem tokensAtPath_empty (Q : List String) :
    tokensAtPath (Node.mk none none) Q = [] := by
  cases Q with
  | nil => simp [tokensAtPath, Node.subscribers]
  | cons q rest => simp [tokensAtPath, Node.topics, childGet]

theorem mem_tokensAtPath_addSubscription :
    ∀ (S : List String) (tok : Nat) (node : Node) (Q : List String) (t1 : Nat),
      S ≠ [] →
      (t1 ∈ tokensAtPath (addSubscription S tok node) Q ↔
        t1 ∈ tokensAtPath node Q ∨ (t1 = tok ∧ Q = S)) := by
  intro S
  induction S with
  | nil => intro tok node Q t1 h; exact absurd rfl h
  | cons s rest ih =>
    intro tok node Q t1 _
    cases node with
    | mk subs topics =>
      simp only [addSubscription, Node.topics, Node.subscribers]
      cases Q with
      | nil =>
        simp only [tokensAtPath, Node.subscribers]
        constructor
        · exact Or.inl
        · rintro (hm | ⟨rfl, hq⟩)
          · exact hm
          · exact absurd hq (by simp)
      | cons q Qrest =>
        by_cases hq : q = s
        · subst hq
          simp only [tokensAtPath, Node.topics, Option.getD_some]
          rw [childGet_childSet_self]
          cases rest with
          | nil =>
            cases Qrest with
            | nil =>
              cases hc : childGet (topics.getD []) q with
              | none =>
                simp only [hc, Option.getD_none, tokensAtPath, Node.subscribers,
                  Option.getD_some]
                rw [mem_setToken]
                simp
              | some c =>
                cases c with
                | mk csubs ctop =>
                  simp only [hc, Option.getD_some, tokensAtPath, Node.subscribers,
                    Option.getD_some]
                  rw [mem_setToken]
                  simp
            | cons q2 Q2 =>
              simp only [tokensAtPath, Node.topics]
              cases hc : childGet (topics.getD []) q with
              | none =>
                simp only [hc, Option.getD_none]
                simp [tokensAtPath, Node.topics, childGet]
              | some c =>
                simp only [hc, Option.getD_some]
                simp [tokensAtPath, Node.topics, hc]
          | cons r2 rrest =>
            rw [ih tok _ Qrest t1 (by simp)]
            cases hc : childGet (topics.getD []) q with
            | none =>
              simp only [hc, Option.getD_none]
              rw [tokensAtPath_empty]
              simp [tokensAtPath, Node.topics, hc]
            | some c =>
              simp only [hc, Option.getD_some]
              simp [tokensAtPath, Node.topics, hc]
        · simp only [tokensAtPath, Node.topics, Option.getD_some]
          rw [childGet_childSet_other _ _ _ _ hq]
          have hne : ¬(q :: Qrest = s :: rest) := by
            intro hh
            exact hq (by injection hh)
          cases hc : childGet (topics.getD []) q with
          | none => simp [hne]
          | some c => simp [hne]

theorem splitSegs_ne_nil : ∀ (l : List Char), splitSegs l ≠ [] := by
  intro l
  induction l with
  | nil => simp [splitSegs]
  | cons c r ih =>
    rw [splitSegs]
    by_cases h : c = '/'
    · simp [h]
    · simp only [h, if_false]
      cases hs : splitSegs r with
      | nil => exact absurd hs ih
      | cons seg rest => simp

theorem splitTopic_ne_nil (s : String) : splitTopic s ≠ [] :=
  splitSegs_ne_nil s.toList

theorem mem_tokensAtPath_foldl :
    ∀ (subs : List (Nat × String)) (node : Node) (Q : List String) (t1 : Nat),
      (t1 ∈ tokensAtPath
          (subs.foldl (fun n p => addSubscription (splitTopic p.2) p.1 n) node) Q ↔
        t1 ∈ tokensAtPath node Q ∨ ∃ p ∈ subs, p.1 = t1 ∧ splitTopic p.2 = Q) := by
  intro subs
  induction subs with
  | nil => intro node Q t1; simp
  | cons hd rest ih =>
    intro node Q t1
    rw [List.foldl_cons, ih, mem_tokensAtPath_addSubscription _ _ _ _ _ (splitTopic_ne_nil hd.2)]
    constructor
    · rintro ((hm | ⟨rfl, rfl⟩) | ⟨p, hp, h1, h2⟩)
      · exact Or.inl hm
      · exact Or.inr ⟨hd, by simp, rfl, rfl⟩
      · exact Or.inr ⟨p, by simp [hp], h1, h2⟩
    · rintro (hm | ⟨p, hp, h1, h2⟩)
      · exact Or.inl (Or.inl hm)
      · rcases List.mem_cons.1 hp with rfl | hp2
        · exact Or.inl (Or.inr ⟨h1.symm, h2.symm⟩)
        · exact Or.inr ⟨p, hp2, h1, h2⟩

theorem mem_tokensAtPath_buildTrie (subs : List (Nat × String)) (Q : List String) (t1 : Nat) :
    t1 ∈ tokensAtPath (buildTrie subs) Q ↔ ∃ p ∈ subs, p.1 = t1 ∧ splitTopic p.2 = Q := by
  rw [buildTrie, mem_tokensAtPath_foldl]
  rw [tokensAtPath_empty]
  simp

theorem gateB_mkReg (cenv : CEnv) (subs : List (Nat × String)) (data : JsVal)
    (topic : String) (t : Nat) :
    gateB cenv (mkReg subs) data topic t = true ↔ ∃ p ∈ subs, p.1 = t := by
  induction subs with
  | nil => simp [gateB, mkReg, regGet]
  | cons hd rest ih =>
    rw [mkReg, List.map_cons]
    simp only [gateB, regGet]
    by_cases h : hd.1 = t
    · simp only [h, if_pos rfl]
      constructor
      · intro _
        exact ⟨hd, by simp, h⟩
      · intro _
        simp [condPasses]
    · rw [if_neg h]
      rw [gateB] at ih
      rw [mkReg] at ih
      rw [ih]
      constructor
      · rintro ⟨p, hp, h1⟩
        exact ⟨p, by simp [hp], h1⟩
      · rintro ⟨p, hp, h1⟩
        rcases List.mem_cons.1 hp with rfl | hp2
        · exact absurd h1 h
        · exact ⟨p, hp2, h1⟩

theorem wildMatch_self_append : ∀ (S suff : List String), wildMatch S (S ++ suff) = true := by
  intro S
  induction S with
  | nil => intro suff; simp [wildMatch]
  | cons s rest ih => intro suff; simp [wildMatch, ih]

theorem wildMatch_star_cons (p : String) (P : List String) :
    wildMatch ["*"] (p :: P) = true := by
  simp [wildMatch]

theorem wildMatch_length_le : ∀ (S P : List String), wildMatch S P = true → S.length ≤ P.length := by
  intro S
  induction S with
  | nil => intro P _; simp
  | cons s rest ih =>
    intro P h
    cases P with
    | nil => simp [wildMatch] at h
    | cons p ps =>
      rw [wildMatch, Bool.and_eq_true] at h
      simpa using Nat.succ_le_succ (ih ps h.2)

theorem wildMatch_snoc_star (S : List String) :
    wildMatch (S ++ ["*"]) S = false := by
  by_contra h
  have h2 := wildMatch_length_le (S ++ ["*"]) S (by simpa using Bool.of_not_eq_false h)
  simp at h2

/-- C1: matching is descendant-inclusive with single-segment-and-below
wildcards.  For a published topic `P` without `*`, a token is in the
candidate list produced by the matcher over the trie built from a set of
subscriptions exactly when one of its subscriptions' paths is a leading
portion of `P`'s path with `*` allowed segment-wise — i.e. exactly when
the traversal visits that subscription's node.  The accompanying
`wildMatch` facts instantiate the claim's consequences: a subscriber on
`T` matches `T` and every descendant `T/suffix`; a subscriber on `*`
matches every published topic (every split is non-empty); and a
subscriber on `topic/*` never matches `topic` itself. -/
theorem c1_descendant_inclusive_matching (cenv : CEnv) (g : GlobalOptions)
    (subs : List (Nat × String)) (P : String) (data : JsVal) (options : Options)
    (hP : "*" ∉ splitTopic P) :
    (∀ t : Nat,
      t ∈ tokensOf (findSubscribers cenv (mkReg subs) g (splitTopic P) data options
          (buildTrie subs) P []) ↔
        ∃ p ∈ subs, p.1 = t ∧ wildMatch (splitTopic p.2) (splitTopic P) = true) ∧
    (∀ S suff : List String, wildMatch S (S ++ suff) = true) ∧
    (∀ (q : String) (Q : List String), wildMatch ["*"] (q :: Q) = true) ∧
    (∀ T : String, splitTopic T ≠ []) ∧
    (∀ S : List String, wildMatch (S ++ ["*"]) S = false) := by
  refine ⟨?_, wildMatch_self_append, wildMatch_star_cons, splitTopic_ne_nil, wildMatch_snoc_star⟩
  intro t
  rw [tokensOf_findSubscribers]
  have hnil : tokensOf ([] : List Candidate) = [] := rfl
  rw [hnil, List.nil_append, mem_findTokens]
  constructor
  · rintro ⟨S, hS, hmem, _⟩
    rcases (mem_tokensAtPath_buildTrie subs S t).1 hmem with ⟨p, hp, h1, h2⟩
    exact ⟨p, hp, h1, by rw [h2]; exact hS⟩
  · rintro ⟨p, hp, h1, h2⟩
    refine ⟨splitTopic p.2, h2, ?_, ?_⟩
    · exact (mem_tokensAtPath_buildTrie subs _ t).2 ⟨p, hp, h1, rfl⟩
    · exact (gateB_mkReg cenv subs data P t).2 ⟨p, hp, h1⟩

/-- Witness for C1 at a concrete instance: subscriptions on `a`, `a/*`
and `*`, published topic `a/b`. -/
theorem c1_descendant_inclusive_matching_witness :
    (∀ t : Nat,
      t ∈ tokensOf (findSubscribers (fun _ _ _ => JsVal.undef)
          (mkReg [(0, "a"), (1, "a/*"), (2, "*")])
          { async := true, handleExceptions := false, lenientUnsubscribe := false }
          (splitTopic "a/b") JsVal.undef {}
          (buildTrie [(0, "a"), (1, "a/*"), (2, "*")]) "a/b" []) ↔
        ∃ p ∈ [(0, "a"), (1, "a/*"), (2, "*")], p.1 = t ∧
          wildMatch (splitTopic p.2) (splitTopic "a/b") = true) ∧
    (∀ S suff : List String, wildMatch S (S ++ suff) = true) ∧
    (∀ (q : String) (Q : List String), wildMatch ["*"] (q :: Q) = true) ∧
    (∀ T : String, splitTopic T ≠ []) ∧
    (∀ S : List String, wildMatch (S ++ ["*"]) S = false) :=
  c1_descendant_inclusive_matching (fun _ _ _ => JsVal.undef)
    { async := true, handleExceptions := false, lenientUnsubscribe := false }
    [(0, "a"), (1, "a/*"), (2, "*")] "a/b" JsVal.undef {} (by decide)

/-- C10: a matched subscriber with a condition function is admitted to
the candidate list exactly when the condition, applied to the published
payload and topic (payload-first order unless `topicArg` is set), returns
exactly the boolean `true`; any other return value — including truthy
values such as `1` — excludes it for that publish call. -/
theorem c10_condition_exact_true (cenv : CEnv) (reg : List (Nat × Subscriber))
    (g : GlobalOptions) (P : List String) (data : JsVal) (options : Options)
    (node : Node) (topic : String) (t : Nat) (sub : Subscriber) (c : Nat)
    (hreg : regGet reg t = some sub)
    (hcond : sub.options.condition = some c)
    (harg : sub.options.topicArg ≠ some true) :
    t ∈ tokensOf (findSubscribers cenv reg g P data options node topic []) ↔
      (∃ S, wildMatch S P = true ∧ t ∈ tokensAtPath node S) ∧
        cenv c data (JsVal.str topic) = JsVal.bool true := by
  rw [tokensOf_findSubscribers]
  have hnil : tokensOf ([] : List Candidate) = [] := rfl
  rw [hnil, List.nil_append, mem_findTokens]
  have hgate : gateB cenv reg data topic t =
      (cenv c data (JsVal.str topic) == JsVal.bool true) := by
    rw [gateB, hreg]
    simp only [condPasses, hcond]
    rw [if_neg harg]
  constructor
  · rintro ⟨S, hS, hmem, hg⟩
    rw [hgate] at hg
    exact ⟨⟨S, hS, hmem⟩, by simpa using hg⟩
  · rintro ⟨⟨S, hS, hmem⟩, hc⟩
    exact ⟨S, hS, hmem, by rw [hgate]; simpa using hc⟩

/-- Witness for C10: a subscriber on `x` whose condition returns the
truthy value `1`; the iff shows the admission test is exactly
`=== true`. -/
theorem c10_condition_exact_true_witness :
    7 ∈ tokensOf (findSubscribers (fun _ _ _ => JsVal.num 1)
        [(7, { token := 7, topic := "x", handler := 0,
               options := { condition := some 1 } })]
        { async := true, handleExceptions := false, lenientUnsubscribe := false }
        ["x"] (JsVal.num 5) {}
        (Node.mk none (some [("x", Node.mk (some [7]) none)])) "x" []) ↔
      (∃ S, wildMatch S ["x"] = true ∧
          7 ∈ tokensAtPath (Node.mk none (some [("x", Node.mk (some [7]) none)])) S) ∧
        (fun (_ : Nat) (_ : JsVal) (_ : JsVal) => JsVal.num 1) 1 (JsVal.num 5) (JsVal.str "x") =
          JsVal.bool true :=
  c10_condition_exact_true (fun _ _ _ => JsVal.num 1)
    [(7, { token := 7, topic := "x", handler := 0, options := { condition := some 1 } })]
    { async := true, handleExceptions := false, lenientUnsubscribe := false }
    ["x"] (JsVal.num 5) {}
    (Node.mk none (some [("x", Node.mk (some [7]) none)])) "x" 7
    { token := 7, topic := "x", handler := 0, options := { condition := some 1 } } 1
    (by decide) (by decide) (by decide)

theorem range_one_concat (n : Nat) :
    List.range' 1 (n + 1) = List.range' 1 n ++ [n + 1] := by
  have h : ∀ (k s : Nat), List.range' s (k + 1) = List.range' s k ++ [s + k] := by
    intro k
    induction k with
    | zero => intro s; simp [List.range']
    | succ k ih =>
      intro s
      rw [List.range', ih (s + 1), List.range']
      simp [Nat.add_assoc, Nat.add_comm 1 k]
  have h2 := h n 1
  rw [h2, Nat.add_comm 1 n]

theorem positions_collectNode (cenv : CEnv) (reg : List (Nat × Subscriber))
    (g : GlobalOptions) (data : JsVal) (options : Options) (topic : String) :
    ∀ (toks : List Nat) (acc : List Candidate),
      acc.map Candidate.position = List.range' 1 acc.length →
      (collectNode cenv reg g data options topic toks acc).map Candidate.position =
        List.range' 1 (collectNode cenv reg g data options topic toks acc).length := by
  intro toks
  induction toks with
  | nil => intro acc h; simpa [collectNode] using h
  | cons t rest ih =>
    intro acc h
    rw [collectNode]
    cases hr : regGet reg t with
    | none => exact ih acc h
    | some sub =>
      by_cases hc : condPasses cenv sub data topic
      · simp only [hc, if_true]
        apply ih
        simp only [List.map_append, List.length_append, h]
        simp [range_one_concat]
      · simp only [hc, Bool.false_eq_true, if_false]
        exact ih acc h

theorem positions_findSubscribers (cenv : CEnv) (reg : List (Nat × Subscriber))
    (g : GlobalOptions) (data : JsVal) (options : Options) (topic : String) :
    ∀ (P : List String) (node : Node) (acc : List Candidate),
      acc.map Candidate.position = List.range' 1 acc.length →
      (findSubscribers cenv reg g P data options node topic acc).map Candidate.position =
        List.range' 1 (findSubscribers cenv reg g P data options node topic acc).length := by
  intro P
  induction P with
  | nil =>
    intro node acc h
    rw [findSubscribers]
    exact positions_collectNode cenv reg g data options topic _ acc h
  | cons seg rest ih =>
    intro node acc h
    rw [findSubscribers]
    have hcoll := positions_collectNode cenv reg g data options topic
      (node.subscribers.getD []) acc h
    cases htop : node.topics with
    | none => simpa using hcoll
    | some cs =>
      simp only
      cases hw : childGet cs "*" with
      | none =>
        cases hl : childGet cs seg with
        | none => simpa using hcoll
        | some c => exact ih c _ hcoll
      | some w =>
        cases hl : childGet cs seg with
        | none => exact ih w _ hcoll
        | some c => exact ih c _ (ih w _ hcoll)

theorem publish_async_eq (henv : HEnv) (cenv : CEnv) (topic : String) (data : JsVal)
    (options : Options) (st : PubState)
    (hpersist : options.persist ≠ some true) (hstar : topicHasStar topic = false)
    (hasync : options.async.getD st.globalOptions.async = true) :
    publish henv cenv topic data options st =
      ({ st with
          pending := st.pending ++
            asyncUnits topic data options
              (sortCands (findSubscribers cenv st.subscrs st.globalOptions
                (splitTopic topic) data options st.subsTree topic [])) },
       PubResult.ok true) := by
  rw [publish]
  simp only [if_neg hpersist, hstar, Bool.false_eq_true, if_false, hasync, if_true]
  simp [asyncUnits]

theorem publish_sync_eq (henv : HEnv) (cenv : CEnv) (topic : String) (data : JsVal)
    (options : Options) (st : PubState)
    (hpersist : options.persist ≠ some true) (hstar : topicHasStar topic = false)
    (hasync : options.async.getD st.globalOptions.async = false) :
    publish henv cenv topic data options st =
      publishLoop henv topic data options st
        (sortCands (findSubscribers cenv st.subscrs st.globalOptions
          (splitTopic topic) data options st.subsTree topic [])) := by
  rw [publish]
  simp only [if_neg hpersist, hstar, Bool.false_eq_true, if_false, hasync]

/-- C2: dispatch order is deterministic.  (i) The dispatcher's sort
produces a permutation of the candidate list that is sorted by priority
descending with ties broken by ascending `position`; (ii) `position` is
exactly the one-based discovery index of the traversal; (iii) at a node
with both a `*` child and a literal child the traversal emits the `*`
subtree's candidates before the literal subtree's, fixing the tie-break
order; (iv) an asynchronous publish schedules the sorted candidates in
exactly that order, and a synchronous publish hands exactly the sorted
list to the dispatch loop, so equal-priority subscribers run in
traversal-discovery order. -/
theorem c2_deterministic_dispatch_order :
    (∀ l : List Candidate,
      List.Sorted candR (sortCands l) ∧ List.Perm (sortCands l) l) ∧
    (∀ (cenv : CEnv) (reg : List (Nat × Subscriber)) (g : GlobalOptions)
        (P : List String) (data : JsVal) (options : Options) (node : Node)
        (topic : String),
      (findSubscribers cenv reg g P data options node topic []).map Candidate.position =
        List.range' 1 (findSubscribers cenv reg g P data options node topic []).length) ∧
    (∀ (cenv : CEnv) (reg : List (Nat × Subscriber)) (g : GlobalOptions)
        (seg : String) (rest : List String) (data : JsVal) (options : Options)
        (node : Node) (topic : String) (cs : List (String × Node)) (w lc : Node),
      node.topics = some cs → childGet cs "*" = some w → childGet cs seg = some lc →
      tokensOf (findSubscribers cenv reg g (seg :: rest) data options node topic []) =
        ((node.subscribers.getD []).filter (gateB cenv reg data topic) ++
          tokensOf (findSubscribers cenv reg g rest data options w topic [])) ++
          tokensOf (findSubscribers cenv reg g rest data options lc topic [])) ∧
    (∀ (henv : HEnv) (cenv : CEnv) (topic : String) (data : JsVal)
        (options : Options) (st : PubState),
      options.persist ≠ some true → topicHasStar topic = false →
      options.async.getD st.globalOptions.async = true →
      publish henv cenv topic data options st =
        ({ st with
            pending := st.pending ++
              asyncUnits topic data options
                (sortCands (findSubscribers cenv st.subscrs st.globalOptions
                  (splitTopic topic) data options st.subsTree topic [])) },
         PubResult.ok true)) ∧
    (∀ (henv : HEnv) (cenv : CEnv) (topic : String) (data : JsVal)
        (options : Options) (st : PubState),
      options.persist ≠ some true → topicHasStar topic = false →
      options.async.getD st.globalOptions.async = false →
      publish henv cenv topic data options st =
        publishLoop henv topic data options st
          (sortCands (findSubscribers cenv st.subscrs st.globalOptions
            (splitTopic topic) data options st.subsTree topic []))) := by
  refine ⟨?_, ?_, ?_, ?_, ?_⟩
  · intro l
    constructor
    · exact List.sorted_insertionSort candR l
    · exact List.perm_insertionSort candR l
  · intro cenv reg g P data options node topic
    exact positions_findSubscribers cenv reg g data options topic P node [] (by simp)
  · intro cenv reg g seg rest data options node topic cs w lc htop hw hl
    rw [tokensOf_findSubscribers, findTokens, htop]
    simp only [hw, hl, tokensOf_findSubscribers]
    have hnil : tokensOf ([] : List Candidate) = [] := rfl
    simp [hnil, List.append_assoc]
  · intro henv cenv topic data options st hpersist hstar hasync
    exact publish_async_eq henv cenv topic data options st hpersist hstar hasync
  · intro henv cenv topic data options st hpersist hstar hasync
    exact publish_sync_eq henv cenv topic data options st hpersist hstar hasync

/-- Witness for C2 at concrete inputs, discharging each hypothesis. -/
theorem c2_deterministic_dispatch_order_witness :
    (List.Sorted candR (sortCands []) ∧ List.Perm (sortCands []) []) ∧
    tokensOf (findSubscribers (fun _ _ _ => JsVal.undef) (mkReg [(0, "a"), (1, "*")])
        { async := false, handleExceptions := false, lenientUnsubscribe := false }
        ["a"] JsVal.undef {} (buildTrie [(0, "a"), (1, "*")]) "a" []) =
      ((((buildTrie [(0, "a"), (1, "*")]).subscribers.getD []).filter
          (gateB (fun _ _ _ => JsVal.undef) (mkReg [(0, "a"), (1, "*")]) JsVal.undef "a") ++
        tokensOf (findSubscribers (fun _ _ _ => JsVal.undef) (mkReg [(0, "a"), (1, "*")])
          { async := false, handleExceptions := false, lenientUnsubscribe := false }
          [] JsVal.undef {} (Node.mk (some [1]) none) "a" [])) ++
        tokensOf (findSubscribers (fun _ _ _ => JsVal.undef) (mkReg [(0, "a"), (1, "*")])
          { async := false, handleExceptions := false, lenientUnsubscribe := false }
          [] JsVal.undef {} (Node.mk (some [0]) none) "a" [])) ∧
    publish (fun _ _ _ => HandlerOutcome.ret JsVal.undef) (fun _ _ _ => JsVal.undef)
        "a" JsVal.undef {} initState =
      ({ initState with
          pending := initState.pending ++
            asyncUnits "a" JsVal.undef {}
              (sortCands (findSubscribers (fun _ _ _ => JsVal.undef) initState.subscrs
                initState.globalOptions (splitTopic "a") JsVal.undef {}
                initState.subsTree "a" [])) },
       PubResult.ok true) ∧
    publish (fun _ _ _ => HandlerOutcome.ret JsVal.undef) (fun _ _ _ => JsVal.undef)
        "a" JsVal.undef { async := some false } initState =
      publishLoop (fun _ _ _ => HandlerOutcome.ret JsVal.undef) "a" JsVal.undef
        { async := some false } initState
        (sortCands (findSubscribers (fun _ _ _ => JsVal.undef) initState.subscrs
          initState.globalOptions (splitTopic "a") JsVal.undef { async := some false }
          initState.subsTree "a" [])) := by
  refine ⟨c2_deterministic_dispatch_order.1 [], ?_, ?_, ?_⟩
  · exact c2_deterministic_dispatch_order.2.2.1 (fun _ _ _ => JsVal.undef)
      (mkReg [(0, "a"), (1, "*")])
      { async := false, handleExceptions := false, lenientUnsubscribe := false }
      "a" [] JsVal.undef {} (buildTrie [(0, "a"), (1, "*")]) "a"
      [("a", Node.mk (some [0]) none), ("*", Node.mk (some [1]) none)]
      (Node.mk (some [1]) none) (Node.mk (some [0]) none)
      rfl rfl rfl
  · exact c2_deterministic_dispatch_order.2.2.2.1 (fun _ _ _ => HandlerOutcome.ret JsVal.undef)
      (fun _ _ _ => JsVal.undef) "a" JsVal.undef {} initState (by decide) (by decide) (by decide)
  · exact c2_deterministic_dispatch_order.2.2.2.2 (fun _ _ _ => HandlerOutcome.ret JsVal.undef)
      (fun _ _ _ => JsVal.undef) "a" JsVal.undef { async := some false } initState
      (by decide) (by decide) (by decide)

/-- C6: synchronous cancellation.  (i) When the handler execution of the
next candidate returns exactly `false` and `options.cancelable` is not
`false`, the dispatch loop stops in exactly that state with result
`false` — the remaining candidates are never executed; (ii) any other
return value (or `cancelable: false`) continues with the rest; (iii) an
exhausted loop returns `true`; (iv) a publish resolved as asynchronous
returns `true` immediately after scheduling, so `false` is returned only
on synchronous cancellation. -/
theorem c6_sync_cancellation :
    (∀ (henv : HEnv) (topic : String) (data : JsVal) (options : Options)
        (st st1 : PubState) (c : Candidate) (rest : List Candidate),
      executeHandler henv st c.token topic data options = (st1, ExecResult.ret (JsVal.bool false)) →
      options.cancelable ≠ some false →
      publishLoop henv topic data options st (c :: rest) = (st1, PubResult.ok false)) ∧
    (∀ (henv : HEnv) (topic : String) (data : JsVal) (options : Options)
        (st st1 : PubState) (c : Candidate) (rest : List Candidate) (v : JsVal),
      executeHandler henv st c.token topic data options = (st1, ExecResult.ret v) →
      (v ≠ JsVal.bool false ∨ options.cancelable = some false) →
      publishLoop henv topic data options st (c :: rest) =
        publishLoop henv topic data options st1 rest) ∧
    (∀ (henv : HEnv) (topic : String) (data : JsVal) (options : Options) (st : PubState),
      publishLoop henv topic data options st [] = (st, PubResult.ok true)) ∧
    (∀ (henv : HEnv) (cenv : CEnv) (topic : String) (data : JsVal)
        (options : Options) (st : PubState),
      topicHasStar topic = false →
      options.async.getD st.globalOptions.async = true →
      (publish henv cenv topic data options st).2 = PubResult.ok true) := by
  refine ⟨?_, ?_, ?_, ?_⟩
  · intro henv topic data options st st1 c rest hexec hcanc
    rw [publishLoop, hexec]
    dsimp only
    rw [if_pos ⟨rfl, hcanc⟩]
  · intro henv topic data options st st1 c rest v hexec hcont
    rw [publishLoop, hexec]
    dsimp only
    rcases hcont with hv | hc
    · rw [if_neg (fun hh => hv hh.1)]
    · rw [if_neg (fun hh => hh.2 hc)]
  · intro henv topic data options st
    rw [publishLoop]
  · intro henv cenv topic data options st hstar hasync
    rw [publish]
    simp only [hstar, Bool.false_eq_true, if_false, hasync, if_true]
    split <;> simp

/-- Witness for C6: a one-candidate loop whose handler returns exactly
`false` cancels; a non-`false` return continues; async publish returns
`true`. -/
theorem c6_sync_cancellation_witness :
    publishLoop (fun _ _ _ => HandlerOutcome.ret (JsVal.bool false)) "t" JsVal.undef {}
        { initState with
            subscrs := [(0, { token := 0, topic := "t", handler := 0, options := {} })] }
        [{ token := 0, priority := 0, position := 1, async := false },
         { token := 1, priority := 0, position := 2, async := false }] =
      ({ initState with
          subscrs := [(0, { token := 0, topic := "t", handler := 0, options := {} })],
          callLog := [{ handler := 0, topic := "t", data := JsVal.undef }] },
       PubResult.ok false) ∧
    publishLoop (fun _ _ _ => HandlerOutcome.ret (JsVal.num 3)) "t" JsVal.undef {}
        { initState with
            subscrs := [(0, { token := 0, topic := "t", handler := 0, options := {} })] }
        [{ token := 0, priority := 0, position := 1, async := false }] =
      publishLoop (fun _ _ _ => HandlerOutcome.ret (JsVal.num 3)) "t" JsVal.undef {}
        { initState with
            subscrs := [(0, { token := 0, topic := "t", handler := 0, options := {} })],
            callLog := [{ handler := 0, topic := "t", data := JsVal.undef }] }
        [] ∧
    (publish (fun _ _ _ => HandlerOutcome.ret (JsVal.bool false)) (fun _ _ _ => JsVal.undef)
        "t" JsVal.undef {} initState).2 = PubResult.ok true := by
  refine ⟨?_, ?_, ?_⟩
  · apply c6_sync_cancellation.1
    · rfl
    · simp
  · apply c6_sync_cancellation.2.1
    · rfl
    · left
      simp
  · exact c6_sync_cancellation.2.2.2 (fun _ _ _ => HandlerOutcome.ret (JsVal.bool false))
      (fun _ _ _ => JsVal.undef) "t" JsVal.undef {} initState (by decide) (by decide)

/-- C3 (code bug): the effective exception guard is *not* the claimed
override (`options.handleExceptions` if present else the global default).
At the failing input — global `handleExceptions = true`, publish options
`handleExceptions: false`, a throwing handler, synchronous delivery —
the source evaluates `options.handleExceptions !== true &&
globalOptions.handleExceptions !== true` to `false`, so the exception is
caught and logged and `publish` returns `true`, where the claim (and the
source's own JSDoc "Overrides the global setting") requires propagation. -/
theorem c3_handle_exceptions_override_ignored :
    (publish throwingHenv (fun _ _ _ => JsVal.undef) "t" JsVal.undef c3Options c3State).2 =
      PubResult.ok true ∧
    (publish throwingHenv (fun _ _ _ => JsVal.undef) "t" JsVal.undef c3Options c3State).1.consoleErrors =
      ["boom"] ∧
    (publish throwingHenv (fun _ _ _ => JsVal.undef) "t" JsVal.undef c3Options c3State).1.callLog =
      [{ handler := 9, topic := "t", data := JsVal.undef }] ∧
    c3State.globalOptions.handleExceptions = true ∧
    c3Options.handleExceptions = some false := by
  refine ⟨rfl, rfl, rfl, rfl, rfl⟩

/-- C5 (code bug): topic+handler unsubscribe that matches nothing
silently no-ops even with lenient mode disabled.  At the failing input —
registry holding only `(topic a, handler 5)`, lenient globally `false`,
call `unsubscribe('a', handler 77)` — the linear scan finds no record and
the source falls through without throwing, where the claim (and the
source's `@throws` documentation) requires a failure. -/
theorem c5_topic_handler_no_match_silent :
    unsubscribe (some (UnsubArg.top "a")) (some (HandlerArg.fn 77)) none c5State =
      (c5State, none) ∧
    c5State.globalOptions.lenientUnsubscribe = false ∧
    c5State.subscrs.length = 1 ∧
    scanTopicHandler "a" 77 c5State.subscrs = none := by
  refine ⟨rfl, rfl, rfl, rfl⟩

/-- C8 counterexample: `configure` called with no options at all does not
fail — it returns through the `= {}` destructuring default as a no-op,
leaving the state untouched and raising nothing. -/
theorem c8_configure_no_options_no_failure :
    configure none initState = (initState, none) := rfl

/-- C8 as amended: `configure` merges each provided field into the global
configuration, every unspecified field keeps its previous value, and a
call with no options at all is a silent no-op (it does not fail). -/
theorem c8_configure_merge :
    (∀ (a : ConfigArgs) (st : PubState),
      (configure (some a) st).1.globalOptions.async =
          a.async.getD st.globalOptions.async ∧
        (configure (some a) st).1.globalOptions.handleExceptions =
          a.handleExceptions.getD st.globalOptions.handleExceptions ∧
        (configure (some a) st).1.globalOptions.lenientUnsubscribe =
          a.lenientUnsubscribe.getD st.globalOptions.lenientUnsubscribe ∧
        (configure (some a) st).1.tokenCounter = st.tokenCounter ∧
        (configure (some a) st).1.subscrs = st.subscrs ∧
        (configure (some a) st).1.persistentMessages = st.persistentMessages ∧
        (configure (some a) st).2 = none) ∧
    (∀ st : PubState, configure none st = (st, none)) := by
  constructor
  · intro a st
    refine ⟨rfl, rfl, rfl, rfl, rfl, rfl, rfl⟩
  · intro st
    rfl

/-- C4 counterexample: at a concrete input the source's replay differs
from the claim's replay semantics.  With stored messages on `t`
(snapshot `cancelable: false`) and `t/a`, a subscriber on `t` whose
handler returns exactly `false`, and subscribe options
`{persist: true, cancelable: true}`: the source stops after the first
replay (its break condition reads the *subscribe call's*
`cancelable === true`), while replay governed by each stored message's
own snapshot — as the claim states — would deliver both messages, since
the first snapshot's `cancelable: false` forbids cancellation. -/
theorem c4_replay_snapshot_cancellation_cex :
    (subscribe falseHenv (some "t") (some 5) c4SubOpts c4State).1.callLog.length = 1 ∧
    (replaySpecC4 falseHenv "t" 0 c4State.persistentMessages c4Inserted).1.callLog.length = 2 := by
  refine ⟨rfl, rfl⟩

theorem replayLoop_eq_amended (henv : HEnv) (subTopic : String) (token : Nat)
    (subOpts : Options) :
    ∀ (msgs : List (String × PersistentMessage)) (st : PubState),
      replayLoop henv subTopic token subOpts msgs st =
        replayAmendedC4 henv subTopic token subOpts msgs st := by
  intro msgs
  induction msgs with
  | nil => intro st; rfl
  | cons hd rest ih =>
    intro st
    obtain ⟨key, pm⟩ := hd
    rw [replayLoop, replayAmendedC4]
    by_cases hm : replayKeyMatches subTopic key
    · simp only [hm, if_true]
      by_cases ha : pm.options.async.getD st.globalOptions.async
      · simp only [ha, if_true, ih]
      · simp only [ha, Bool.false_eq_true, if_false]
        cases hexec : executeHandler henv st token key pm.data subOpts with
        | mk st1 r =>
          cases r with
          | thrown e => rfl
          | ret v =>
            by_cases hv : v = JsVal.bool false ∧ subOpts.cancelable = some true
            · simp [hv, ih]
            · simp only [if_neg hv, ih]
    · simp only [hm, Bool.false_eq_true, if_false, ih]

/-- C4 as amended: the persistent-message replay of a persisting
subscribe targets only the new subscriber and walks the store in order;
each matching stored message's *own* `async` snapshot (else the global
default) decides deferred versus synchronous delivery, exactly as the
claim states — but delivery runs `executeHandler` with the *subscribe
call's* options, and a synchronous replay cancels the remaining replays
only when the handler returns exactly `false` and the subscribe call's
`cancelable` is exactly `true`.  The first conjunct proves the source's
replay loop equal to that amended semantics; the second unfolds a
persisting `subscribe` into insertion followed by that loop. -/
theorem c4_replay_amended :
    (∀ (henv : HEnv) (subTopic : String) (token : Nat) (subOpts : Options)
        (msgs : List (String × PersistentMessage)) (st : PubState),
      replayLoop henv subTopic token subOpts msgs st =
        replayAmendedC4 henv subTopic token subOpts msgs st) ∧
    (∀ (henv : HEnv) (topic : String) (h : Nat) (opts : Options) (st : PubState),
      hasUndefinedSub topic = false →
      opts.persist = some true →
      subscribe henv (some topic) (some h) opts st =
        replayAmendedC4 henv topic st.tokenCounter opts st.persistentMessages
          { st with
              tokenCounter := st.tokenCounter + 1
              subscrs := regSet st.subscrs st.tokenCounter
                { token := st.tokenCounter, topic := topic, handler := h, options := opts }
              subsTree := addSubscription (splitTopic topic) st.tokenCounter st.subsTree }) := by
  constructor
  · intro henv subTopic token subOpts msgs st
    exact replayLoop_eq_amended henv subTopic token subOpts msgs st
  · intro henv topic h opts st hu hp
    rw [subscribe]
    simp only [hu, Bool.false_eq_true, if_false, hp]
    rw [← replayLoop_eq_amended]
    simp

/-- Witness for C4's amended theorem: concrete replay of the two stored
messages of the counterexample state through a persisting subscribe. -/
theorem c4_replay_amended_witness :
    replayLoop falseHenv "t" 0 c4SubOpts c4State.persistentMessages c4Inserted =
      replayAmendedC4 falseHenv "t" 0 c4SubOpts c4State.persistentMessages c4Inserted ∧
    subscribe falseHenv (some "t") (some 5) c4SubOpts c4State =
      replayAmendedC4 falseHenv "t" c4State.tokenCounter c4SubOpts c4State.persistentMessages
        { c4State with
            tokenCounter := c4State.tokenCounter + 1
            subscrs := regSet c4State.subscrs c4State.tokenCounter
              { token := c4State.tokenCounter, topic := "t", handler := 5, options := c4SubOpts }
            subsTree := addSubscription (splitTopic "t") c4State.tokenCounter c4State.subsTree } :=
  ⟨c4_replay_amended.1 falseHenv "t" 0 c4SubOpts c4State.persistentMessages c4Inserted,
   c4_replay_amended.2 falseHenv "t" 5 c4SubOpts c4State (by decide) rfl⟩

theorem sortCands_single (c : Candidate) : sortCands [c] = [c] := rfl

theorem find_empty_topics (cenv : CEnv) (reg : List (Nat × Subscriber))
    (g : GlobalOptions) (P : List String) (data : JsVal) (options : Options)
    (topic : String) :
    findSubscribers cenv reg g P data options (Node.mk none (some [])) topic [] = [] := by
  cases P with
  | nil => rfl
  | cons seg rest =>
    rw [findSubscribers]
    simp [collectNode, Node.subscribers, Node.topics, childGet]

theorem find_chain (cenv : CEnv) (reg : List (Nat × Subscriber)) (g : GlobalOptions)
    (data : JsVal) (opts : Options) (topic : String) (tok : Nat) (sub : Subscriber)
    (hreg : regGet reg tok = some sub) (hcond : sub.options.condition = none) :
    ∀ L : List String, L ≠ [] → "*" ∉ L →
      findSubscribers cenv reg g L data opts
          (addSubscription L tok (Node.mk none none)) topic [] =
        [{ token := tok, priority := sub.options.priority.getD 0, position := 1,
           async := (opts.async == some true) || (sub.options.async == some true)
             || g.async }] := by
  have hpass : condPasses cenv sub data topic = true := by
    rw [condPasses, hcond]
  intro L
  induction L with
  | nil => intro h _; exact absurd rfl h
  | cons s rest ih =>
    intro _ hstar
    have hs : s ≠ "*" := fun hh => hstar (by simp [hh])
    cases rest with
    | nil =>
      have hA : addSubscription [s] tok (Node.mk none none) =
          Node.mk none (some [(s, Node.mk (some [tok]) none)]) := rfl
      rw [hA, findSubscribers]
      simp only [Node.subscribers, Node.topics, Option.getD_none, collectNode,
        childGet, hs, if_neg hs, if_pos rfl, if_false, if_true]
      rw [findSubscribers]
      simp only [Node.subscribers, Option.getD_some, collectNode, hreg, hpass, if_true]
      simp
    | cons r2 rrest =>
      have hrest : "*" ∉ (r2 :: rrest) := fun hh => hstar (by simp [hh])
      have hA : addSubscription (s :: r2 :: rrest) tok (Node.mk none none) =
          Node.mk none
            (some [(s, addSubscription (r2 :: rrest) tok (Node.mk none none))]) := rfl
      rw [hA, findSubscribers]
      simp only [Node.subscribers, Node.topics, Option.getD_none, collectNode,
        childGet, hs, if_neg hs, if_pos rfl, if_false, if_true]
      exact ih (by simp) hrest

theorem remove_chain (tok : Nat) :
    ∀ L : List String, L ≠ [] →
      removeSubscription L tok (addSubscription L tok (Node.mk none none)) =
        some (Node.mk none (some [])) := by
  intro L
  induction L with
  | nil => intro h; exact absurd rfl h
  | cons s rest ih =>
    intro _
    cases rest with
    | nil =>
      have hA : addSubscription [s] tok (Node.mk none none) =
          Node.mk none (some [(s, Node.mk (some [tok]) none)]) := rfl
      rw [hA, removeSubscription]
      simp [childGet, eraseToken, removeCleanup, nodeSize, childSet, childDelete,
        Node.subscribers, Node.topics]
    | cons r2 rrest =>
      have hA : addSubscription (s :: r2 :: rrest) tok (Node.mk none none) =
          Node.mk none
            (some [(s, addSubscription (r2 :: rrest) tok (Node.mk none none))]) := rfl
      rw [hA, removeSubscription]
      simp only [childGet, if_pos rfl, if_true, Option.bind_eq_bind, Option.some_bind]
      rw [ih (by simp)]
      simp [removeCleanup, nodeSize, childSet, childDelete, Node.subscribers, Node.topics]

theorem callHandler_state (henv : HEnv) (st : PubState) (sub : Subscriber)
    (topic : String) (data : JsVal) (o : Options) :
    (callHandler henv st sub topic data o).1.callLog =
        st.callLog ++ [{ handler := sub.handler, topic := topic, data := data }] ∧
      (callHandler henv st sub topic data o).1.subscrs = st.subscrs ∧
      (callHandler henv st sub topic data o).1.subsTree = st.subsTree := by
  rw [callHandler]
  by_cases hg : o.handleExceptions ≠ some true ∧ st.globalOptions.handleExceptions ≠ true
  · rw [if_pos hg]
    cases hout : (if sub.options.topicArg = some true
        then henv sub.handler (JsVal.str topic) data
        else henv sub.handler data (JsVal.str topic)) with
    | ret v => exact ⟨rfl, rfl, rfl⟩
    | throw e => exact ⟨rfl, rfl, rfl⟩
  · rw [if_neg hg]
    cases hout : (if sub.options.topicArg = some true
        then henv sub.handler (JsVal.str topic) data
        else henv sub.handler data (JsVal.str topic)) with
    | ret v => exact ⟨rfl, rfl, rfl⟩
    | throw e => exact ⟨rfl, rfl, rfl⟩

theorem publishLoop_single_state (henv : HEnv) (topic : String) (data : JsVal)
    (o : Options) (st : PubState) (c : Candidate) :
    (publishLoop henv topic data o st [c]).1 =
      (executeHandler henv st c.token topic data o).1 := by
  rw [publishLoop]
  cases hx : executeHandler henv st c.token topic data o with
  | mk sA r =>
    cases r with
    | thrown e => rfl
    | ret v =>
      dsimp only
      by_cases hc : v = JsVal.bool false ∧ o.cancelable ≠ some false
      · rw [if_pos hc]
      · rw [if_neg hc, publishLoop]

theorem unsub_drain_step (topic : String) (h : Nat) (st : PubState)
    (hsub : st.subscrs = [(0, invSub topic h 0)])
    (htree : st.subsTree = addSubscription (splitTopic topic) 0 (Node.mk none none)) :
    unsubscribe (some (UnsubArg.tok 0)) none none st =
      ({ st with subscrs := [], subsTree := Node.mk none (some []) }, none) := by
  have hrg : regGet st.subscrs 0 = some (invSub topic h 0) := by
    rw [hsub]; simp [regGet]
  have hrm := remove_chain 0 (splitTopic topic) (splitTopic_ne_nil topic)
  simp only [unsubscribe, unsubscribeToken, hrg, Option.getD_none]
  rw [show splitTopic (invSub topic h 0).topic = splitTopic topic from rfl, htree, hrm]
  rw [hsub]
  simp [regDelete]

theorem c7_exec_step (henv : HEnv) (topic : String) (data : JsVal) (h : Nat) :
    executeHandler henv (c7Inserted topic h) 0 topic data { async := some false } =
      callHandler henv drainedState (invSub topic h 0) topic data { async := some false } := by
  have hrg : regGet [(0, invSub topic h 1)] 0 = some (invSub topic h 1) := by
    simp [regGet]
  rw [executeHandler]
  rw [show (c7Inserted topic h).subscrs = [(0, invSub topic h 1)] from rfl, hrg]
  dsimp only
  rw [show (invSub topic h 1).options.invocations = some 1 from rfl]
  dsimp only
  norm_num
  rw [unsub_drain_step topic h _ rfl rfl]
  rfl

theorem c7_subscribe_step (henv : HEnv) (topic : String) (h : Nat)
    (hu : hasUndefinedSub topic = false) :
    subscribe henv (some topic) (some h) { invocations := some 1 } initState =
      (c7Inserted topic h, SubRes.ok 0) := by
  rw [subscribe]
  simp [hu, regSet, initState, c7Inserted, invSub]

theorem publish_drained (henv : HEnv) (cenv : CEnv) (topic : String) (data : JsVal)
    (st : PubState) (hstar : topicHasStar topic = false)
    (htree : st.subsTree = Node.mk none (some [])) :
    publish henv cenv topic data { async := some false } st = (st, PubResult.ok true) := by
  rw [publish_sync_eq henv cenv topic data { async := some false } st (by simp) hstar rfl]
  rw [htree, find_empty_topics]
  rfl

theorem c7_first_publish (henv : HEnv) (cenv : CEnv) (topic : String) (data : JsVal)
    (h : Nat) (hstar : topicHasStar topic = false) (hL : "*" ∉ splitTopic topic) :
    (publish henv cenv topic data { async := some false } (c7Inserted topic h)).1 =
      (callHandler henv drainedState (invSub topic h 0) topic data
        { async := some false }).1 := by
  have hrg : regGet [(0, invSub topic h 1)] 0 = some (invSub topic h 1) := by
    simp [regGet]
  have hfind := find_chain cenv [(0, invSub topic h 1)] initState.globalOptions data
    { async := some false } topic 0 (invSub topic h 1) hrg rfl
    (splitTopic topic) (splitTopic_ne_nil topic) hL
  rw [publish_sync_eq henv cenv topic data { async := some false } (c7Inserted topic h)
    (by simp) hstar rfl]
  rw [show (c7Inserted topic h).subscrs = [(0, invSub topic h 1)] from rfl,
      show (c7Inserted topic h).globalOptions = initState.globalOptions from rfl,
      show (c7Inserted topic h).subsTree =
        addSubscription (splitTopic topic) 0 (Node.mk none none) from rfl,
      hfind, sortCands_single, publishLoop_single_state]
  exact congrArg Prod.fst (c7_exec_step henv topic data h)


/-- C7: invocation limiting.  (i) For a registered subscriber with a
positive tracked budget `n`, `executeHandler` decrements the budget: with
`1 < n` it proceeds to the handler call with the decremented record still
registered; with `n = 1` it first runs the token unsubscribe on the
decremented state and still proceeds to the handler call on its outcome.
(ii) The handler-call step always records the call (the current
invocation proceeds even after the removal).  (iii) End to end from the
initial state: after `subscribe(topic, h, {invocations: 1})`, the first
matching synchronous publish invokes `h` exactly once and leaves the
registry empty and the topic tree fully pruned, and a second publish on
the same topic invokes nothing. -/
theorem c7_invocation_limit :
    (∀ (henv : HEnv) (st : PubState) (tok : Nat) (topic : String) (data : JsVal)
        (opts : Options) (sub : Subscriber) (n : Int),
      regGet st.subscrs tok = some sub →
      sub.options.invocations = some n → 0 < n →
      (1 < n →
        executeHandler henv st tok topic data opts =
          callHandler henv (decState st tok sub (n - 1)) (decSub sub (n - 1))
            topic data opts) ∧
      (n = 1 →
        executeHandler henv st tok topic data opts =
          (match unsubscribe (some (UnsubArg.tok tok)) none none
              (decState st tok sub 0) with
          | (st2, some e) => (st2, ExecResult.thrown e)
          | (st2, none) => callHandler henv st2 (decSub sub 0) topic data opts))) ∧
    (∀ (henv : HEnv) (st : PubState) (sub : Subscriber) (topic : String)
        (data : JsVal) (o : Options),
      (callHandler henv st sub topic data o).1.callLog =
        st.callLog ++ [{ handler := sub.handler, topic := topic, data := data }]) ∧
    (∀ (henv : HEnv) (cenv : CEnv) (topic : String) (data : JsVal) (h : Nat),
      topicHasStar topic = false → hasUndefinedSub topic = false →
      "*" ∉ splitTopic topic →
      (subscribe henv (some topic) (some h) { invocations := some 1 } initState).1 =
        c7Inserted topic h ∧
      (publish henv cenv topic data { async := some false } (c7Inserted topic h)).1.callLog =
        [{ handler := h, topic := topic, data := data }] ∧
      (publish henv cenv topic data { async := some false } (c7Inserted topic h)).1.subscrs = [] ∧
      (publish henv cenv topic data { async := some false } (c7Inserted topic h)).1.subsTree =
        Node.mk none (some []) ∧
      ∀ st2 : PubState, st2.subsTree = Node.mk none (some []) →
        (publish henv cenv topic data { async := some false } st2).1.callLog = st2.callLog) := by
  refine ⟨?_, ?_, ?_⟩
  · intro henv st tok topic data opts sub n hreg hinv hn
    constructor
    · intro hgt
      rw [executeHandler, hreg]
      dsimp only
      rw [hinv]
      dsimp only
      rw [if_pos hn, if_neg (by omega : ¬(n - 1 < 1))]
      rfl
    · intro h1
      subst h1
      rw [executeHandler, hreg]
      dsimp only
      rw [hinv]
      dsimp only
      rw [if_pos (by norm_num : (1 : Int) > 0), if_pos (by norm_num : (1 : Int) - 1 < 1)]
      norm_num
      rfl
  · intro henv st sub topic data o
    exact (callHandler_state henv st sub topic data o).1
  · intro henv cenv topic data h hstar hu hL
    refine ⟨?_, ?_, ?_, ?_, ?_⟩
    · rw [c7_subscribe_step henv topic h hu]
    · rw [c7_first_publish henv cenv topic data h hstar hL]
      rw [(callHandler_state henv drainedState (invSub topic h 0) topic data
        { async := some false }).1]
      rfl
    · rw [c7_first_publish henv cenv topic data h hstar hL]
      rw [(callHandler_state henv drainedState (invSub topic h 0) topic data
        { async := some false }).2.1]
      rfl
    · rw [c7_first_publish henv cenv topic data h hstar hL]
      rw [(callHandler_state henv drainedState (invSub topic h 0) topic data
        { async := some false }).2.2]
      rfl
    · intro st2 htree
      rw [publish_drained henv cenv topic data st2 hstar htree]

/-- Witness for C7: budget `1` subscriber at token `0` on topic `a`; the
`executeHandler` equation at `n = 1` and the subscribe step, with every
hypothesis discharged concretely. -/
theorem c7_invocation_limit_witness :
    executeHandler (fun _ _ _ => HandlerOutcome.ret JsVal.undef) (c7Inserted "a" 3) 0 "a"
        JsVal.undef {} =
      (match unsubscribe (some (UnsubArg.tok 0)) none none
          (decState (c7Inserted "a" 3) 0 (invSub "a" 3 1) 0) with
      | (st2, some e) => (st2, ExecResult.thrown e)
      | (st2, none) => callHandler (fun _ _ _ => HandlerOutcome.ret JsVal.undef) st2
          (decSub (invSub "a" 3 1) 0) "a" JsVal.undef {}) ∧
    (subscribe (fun _ _ _ => HandlerOutcome.ret JsVal.undef) (some "a") (some 3)
        { invocations := some 1 } initState).1 = c7Inserted "a" 3 :=
  ⟨(c7_invocation_limit.1 (fun _ _ _ => HandlerOutcome.ret JsVal.undef)
      (c7Inserted "a" 3) 0 "a" JsVal.undef {} (invSub "a" 3 1) 1
      (by decide) (by decide) (by decide)).2 rfl,
   (c7_invocation_limit.2.2 (fun _ _ _ => HandlerOutcome.ret JsVal.undef)
      (fun _ _ _ => JsVal.undef) "a" JsVal.undef 3
      (by decide) (by decide) (by decide)).1⟩

theorem childGet_childDelete_other (cs : List (String × Node)) (k q : String)
    (h : q ≠ k) : childGet (childDelete cs k) q = childGet cs q := by
  induction cs with
  | nil => rfl
  | cons p rest ih =>
    obtain ⟨s, n⟩ := p
    by_cases hs : s = k
    · subst hs
      simp only [childDelete, if_pos rfl, if_true, childGet]
      rw [if_neg (fun hh : s = q => h hh.symm)]
    · simp only [childDelete, if_neg hs, childGet]
      by_cases hsq : s = q
      · rw [if_pos hsq, if_pos hsq]
      · rw [if_neg hsq, if_neg hsq, ih]

theorem childDelete_childSet (cs : List (String × Node)) (k : String) (v : Node) :
    childDelete (childSet cs k v) k = childDelete cs k := by
  induction cs with
  | nil => simp [childSet, childDelete]
  | cons p rest ih =>
    obtain ⟨s, n⟩ := p
    by_cases hs : s = k
    · subst hs
      simp [childSet, childDelete]
    · simp [childSet, childDelete, hs, ih]

theorem mem_eraseToken_of_ne (l : List Nat) (t t1 : Nat) (h : t1 ≠ t) :
    t1 ∈ eraseToken l t ↔ t1 ∈ l := by
  induction l with
  | nil => simp [eraseToken]
  | cons x rest ih =>
    by_cases hx : x = t
    · subst hx
      simp only [eraseToken, if_pos rfl]
      constructor
      · intro hm; exact List.mem_cons_of_mem _ hm
      · intro hm
        rcases List.mem_cons.1 hm with rfl | hm2
        · exact absurd rfl h
        · exact hm2
    · simp only [eraseToken, if_neg hx]
      simp [ih]

theorem nodeSize_eq_zero (n : Node) (h : nodeSize n = 0) : n = Node.mk none none := by
  cases n with
  | mk subs topics =>
    cases subs with
    | none =>
      cases topics with
      | none => rfl
      | some cs => simp [nodeSize, Node.subscribers, Node.topics] at h
    | some l => simp [nodeSize, Node.subscribers, Node.topics] at h

theorem setToken_ne_nil (l : List Nat) (t : Nat) : setToken l t ≠ [] := by
  unfold setToken
  by_cases h : t ∈ l
  · simp only [h, if_true]
    intro hl
    subst hl
    simp at h
  · simp [h]

theorem tidyChildren_childGet (cs : List (String × Node)) (k : String) (c : Node)
    (hcs : tidyChildren cs = true) (hget : childGet cs k = some c) :
    tidyNode c = true := by
  induction cs with
  | nil => simp [childGet] at hget
  | cons p rest ih =>
    obtain ⟨s, n⟩ := p
    rw [tidyChildren, Bool.and_eq_true] at hcs
    rw [childGet] at hget
    by_cases hs : s = k
    · rw [if_pos hs] at hget
      injection hget with hh
      subst hh
      exact hcs.1
    · rw [if_neg hs] at hget
      exact ih hcs.2 hget

theorem tidyChildren_childSet (cs : List (String × Node)) (k : String) (v : Node)
    (hcs : tidyChildren cs = true) (hv : tidyNode v = true) :
    tidyChildren (childSet cs k v) = true := by
  induction cs with
  | nil => simp [childSet, tidyChildren, hv]
  | cons p rest ih =>
    obtain ⟨s, n⟩ := p
    rw [tidyChildren, Bool.and_eq_true] at hcs
    rw [childSet]
    by_cases hs : s = k
    · rw [if_pos hs, tidyChildren, Bool.and_eq_true]
      exact ⟨hv, hcs.2⟩
    · rw [if_neg hs, tidyChildren, Bool.and_eq_true]
      exact ⟨hcs.1, ih hcs.2⟩

theorem tidyChildren_childDelete (cs : List (String × Node)) (k : String)
    (hcs : tidyChildren cs = true) :
    tidyChildren (childDelete cs k) = true := by
  induction cs with
  | nil => simpa [childDelete] using hcs
  | cons p rest ih =>
    obtain ⟨s, n⟩ := p
    rw [tidyChildren, Bool.and_eq_true] at hcs
    rw [childDelete]
    by_cases hs : s = k
    · rw [if_pos hs]
      exact hcs.2
    · rw [if_neg hs, tidyChildren, Bool.and_eq_true]
      exact ⟨hcs.1, ih hcs.2⟩

theorem childSet_ne_nil (cs : List (String × Node)) (k : String) (v : Node) :
    childSet cs k v ≠ [] := by
  cases cs with
  | nil => simp [childSet]
  | cons p rest =>
    obtain ⟨s, n⟩ := p
    rw [childSet]
    by_cases hs : s = k
    · simp [hs]
    · simp [hs]

theorem tidyNode_parts (subs : Option (List Nat)) (topics : Option (List (String × Node)))
    (h : tidyNode (Node.mk subs topics) = true) :
    optListNonempty subs = true ∧ tidyTopics topics = true ∧
      (subs.isSome || topics.isSome) = true := by
  rw [tidyNode] at h
  simp only [Bool.and_eq_true] at h
  exact ⟨h.1.1, h.1.2, h.2⟩

theorem tidyNode_build (subs : Option (List Nat)) (topics : Option (List (String × Node)))
    (h1 : optListNonempty subs = true) (h2 : tidyTopics topics = true)
    (h3 : (subs.isSome || topics.isSome) = true) :
    tidyNode (Node.mk subs topics) = true := by
  rw [tidyNode]
  simp only [Bool.and_eq_true]
  exact ⟨⟨h1, h2⟩, h3⟩

theorem tidyTopics_children (topics : Option (List (String × Node)))
    (h : tidyTopics topics = true) : tidyChildren (topics.getD []) = true := by
  cases topics with
  | none => rfl
  | some cs =>
    rw [tidyTopics, Bool.and_eq_true] at h
    exact h.2

theorem tidyNode_tidyRoot (n : Node) (h : tidyNode n = true) : tidyRoot n = true := by
  cases n with
  | mk subs topics =>
    have hp := tidyNode_parts subs topics h
    rw [tidyRoot, Bool.and_eq_true]
    exact ⟨hp.1, tidyTopics_children topics hp.2.1⟩

theorem tidyRoot_parts (subs : Option (List Nat)) (topics : Option (List (String × Node)))
    (h : tidyRoot (Node.mk subs topics) = true) :
    optListNonempty subs = true ∧ tidyChildren (topics.getD []) = true := by
  rw [tidyRoot, Bool.and_eq_true] at h
  exact h

theorem tidy_leaf_child (tok : Nat) (c : Node)
    (hc : tidyNode c = true ∨ c = Node.mk none none) :
    tidyNode (Node.mk (some (setToken (c.subscribers.getD []) tok)) c.topics) = true := by
  cases c with
  | mk s2 t2 =>
    apply tidyNode_build
    · simp only [optListNonempty]
      simp [setToken_ne_nil]
    · rcases hc with hcc | hcc
      · exact (tidyNode_parts s2 t2 hcc).2.1
      · injection hcc with hh1 hh2
        subst hh2
        rfl
    · simp

theorem tidy_add_child (tok : Nat) :
    ∀ (S : List String), S ≠ [] → ∀ (c : Node),
      (tidyNode c = true ∨ c = Node.mk none none) →
      tidyNode (addSubscription S tok c) = true := by
  intro S
  induction S with
  | nil => intro hne; exact absurd rfl hne
  | cons s rest ih =>
    intro _ c hc
    cases c with
    | mk subs topics =>
      have hsubs : optListNonempty subs = true := by
        rcases hc with hcc | hcc
        · exact (tidyNode_parts subs topics hcc).1
        · injection hcc with hh1 hh2; subst hh1; rfl
      have hkids : tidyChildren (topics.getD []) = true := by
        rcases hc with hcc | hcc
        · exact tidyTopics_children topics (tidyNode_parts subs topics hcc).2.1
        · injection hcc with hh1 hh2; subst hh2; rfl
      have hchild : tidyNode ((childGet (topics.getD []) s).getD (Node.mk none none)) = true ∨
          (childGet (topics.getD []) s).getD (Node.mk none none) = Node.mk none none := by
        cases hg : childGet (topics.getD []) s with
        | none => right; rfl
        | some c2 =>
          left
          simpa using tidyChildren_childGet _ s c2 hkids hg
      cases rest with
      | nil =>
        simp only [addSubscription]
        apply tidyNode_build
        · exact hsubs
        · rw [tidyTopics, Bool.and_eq_true]
          constructor
          · simp [childSet_ne_nil]
          · exact tidyChildren_childSet _ s _ hkids (tidy_leaf_child tok _ hchild)
        · simp
      | cons r2 rrest =>
        simp only [addSubscription]
        apply tidyNode_build
        · exact hsubs
        · rw [tidyTopics, Bool.and_eq_true]
          constructor
          · simp [childSet_ne_nil]
          · exact tidyChildren_childSet _ s _ hkids (ih (by simp) _ hchild)
        · simp

theorem tidy_add_root (tok : Nat) (S : List String) (hne : S ≠ []) (n : Node)
    (hn : tidyRoot n = true) : tidyRoot (addSubscription S tok n) = true := by
  cases S with
  | nil => exact absurd rfl hne
  | cons s rest =>
    cases n with
    | mk subs topics =>
      have hp := tidyRoot_parts subs topics hn
      have hchild : tidyNode ((childGet (topics.getD []) s).getD (Node.mk none none)) = true ∨
          (childGet (topics.getD []) s).getD (Node.mk none none) = Node.mk none none := by
        cases hg : childGet (topics.getD []) s with
        | none => right; rfl
        | some c2 =>
          left
          simpa using tidyChildren_childGet _ s c2 hp.2 hg
      cases rest with
      | nil =>
        simp only [addSubscription]
        rw [tidyRoot, Bool.and_eq_true]
        refine ⟨hp.1, ?_⟩
        simpa using tidyChildren_childSet _ s _ hp.2 (tidy_leaf_child tok _ hchild)
      | cons r2 rrest =>
        simp only [addSubscription]
        rw [tidyRoot, Bool.and_eq_true]
        refine ⟨hp.1, ?_⟩
        simpa using tidyChildren_childSet _ s _ hp.2 (tidy_add_child tok (r2 :: rrest) (by simp) _ hchild)


theorem tidy_cleanup_core (subs : Option (List Nat)) (cs : List (String × Node))
    (topic : String) (s1 : Option (List Nat)) (t2 : Option (List (String × Node)))
    (hsubs : optListNonempty subs = true)
    (hkids : tidyChildren cs = true)
    (hopt : optListNonempty s1 = true)
    (htt : tidyTopics t2 = true) :
    tidyRoot (Node.mk subs (some
      (if nodeSize (Node.mk s1 t2) = 0
       then childDelete (childSet cs topic (Node.mk s1 t2)) topic
       else childSet cs topic (Node.mk s1 t2)))) = true := by
  rw [tidyRoot, Bool.and_eq_true]
  refine ⟨hsubs, ?_⟩
  by_cases hz : nodeSize (Node.mk s1 t2) = 0
  · rw [if_pos hz]
    simp only [Option.getD_some]
    rw [childDelete_childSet]
    exact tidyChildren_childDelete cs topic hkids
  · rw [if_neg hz]
    simp only [Option.getD_some]
    apply tidyChildren_childSet cs topic _ hkids
    apply tidyNode_build _ _ hopt htt
    rw [nodeSize] at hz
    simp only [Node.subscribers, Node.topics] at hz
    by_cases h1 : s1.isSome
    · simp [h1]
    · simp only [h1, if_false] at hz
      simp only [h1, Bool.false_or]
      by_cases h2 : t2.isSome
      · exact h2
      · simp [h2] at hz

theorem tidy_removeCleanup (subs : Option (List Nat)) (cs : List (String × Node))
    (topic : String) (child1 : Node)
    (hsubs : optListNonempty subs = true)
    (hkids : tidyChildren cs = true)
    (hchild : tidyRoot child1 = true) :
    tidyRoot (removeCleanup subs cs topic child1) = true := by
  cases child1 with
  | mk s1 t1 =>
    have hp := tidyRoot_parts s1 t1 hchild
    cases t1 with
    | none => exact tidy_cleanup_core subs cs topic s1 none hsubs hkids hp.1 rfl
    | some cs1 =>
      cases cs1 with
      | nil => exact tidy_cleanup_core subs cs topic s1 none hsubs hkids hp.1 rfl
      | cons c crest =>
        apply tidy_cleanup_core subs cs topic s1 (some (c :: crest)) hsubs hkids hp.1
        rw [tidyTopics, Bool.and_eq_true]
        exact ⟨by simp, by simpa using hp.2⟩

theorem tidy_remove (S : List String) (tok : Nat) (n n1 : Node)
    (hn : tidyRoot n = true)
    (hrem : removeSubscription S tok n = some n1) :
    tidyRoot n1 = true := by
  induction S generalizing n n1 with
  | nil => rw [removeSubscription] at hrem; exact absurd hrem (by simp)
  | cons topic rest ih =>
    cases n with
    | mk subs topics =>
      rw [removeSubscription] at hrem
      simp only [Option.pure_def, Option.bind_eq_bind] at hrem
      cases topics with
      | none => simp at hrem
      | some cs =>
        simp only [Option.some_bind] at hrem
        cases hg : childGet cs topic with
        | none => rw [hg] at hrem; simp at hrem
        | some child =>
          rw [hg] at hrem
          simp only [Option.some_bind] at hrem
          have hp := tidyRoot_parts subs (some cs) hn
          have hkids : tidyChildren cs = true := by simpa using hp.2
          have hchildT : tidyNode child = true :=
            tidyChildren_childGet cs topic child hkids hg
          cases rest with
          | nil =>
            cases child with
            | mk s2 t2 =>
              dsimp only [Node.subscribers, Node.topics] at hrem
              cases s2 with
              | none => simp at hrem
              | some l =>
                simp only [Option.some_bind] at hrem
                injection hrem with hh
                rw [← hh]
                apply tidy_removeCleanup _ _ _ _ hp.1 hkids
                rw [tidyRoot, Bool.and_eq_true]
                constructor
                · by_cases he : (eraseToken l tok).isEmpty
                  · simp [he, optListNonempty]
                  · simp [he, optListNonempty]
                · exact tidyTopics_children t2 (tidyNode_parts (some l) t2 hchildT).2.1
          | cons r rrest =>
            cases hc : removeSubscription (r :: rrest) tok child with
            | none => rw [hc] at hrem; simp at hrem
            | some child1 =>
              rw [hc] at hrem
              simp only [Option.some_bind] at hrem
              injection hrem with hh
              rw [← hh]
              exact tidy_removeCleanup _ _ _ _ hp.1 hkids
                (ih child child1 (tidyNode_tidyRoot child hchildT) hc)

theorem tidy_callHandler (henv : HEnv) (st : PubState) (sub : Subscriber)
    (topic : String) (data : JsVal) (o : Options)
    (h : tidyRoot st.subsTree = true) :
    tidyRoot (callHandler henv st sub topic data o).1.subsTree = true := by
  rw [(callHandler_state henv st sub topic data o).2.2]
  exact h

theorem tidy_unsubscribeToken (lenient : Bool) (t : Nat) (st : PubState)
    (h : tidyRoot st.subsTree = true) :
    tidyRoot (unsubscribeToken lenient t st).1.subsTree = true := by
  rw [unsubscribeToken]
  cases hg : regGet st.subscrs t with
  | none => by_cases hl : lenient = true <;> simp [hl, h]
  | some sub =>
    dsimp only
    cases hr : removeSubscription (splitTopic sub.topic) t st.subsTree with
    | none => exact h
    | some tree1 => exact tidy_remove _ t _ tree1 h hr

theorem tidy_unsubTokens (lenient : Bool) (ts : List Nat) (st : PubState)
    (h : tidyRoot st.subsTree = true) :
    tidyRoot (unsubTokens lenient ts st).1.subsTree = true := by
  induction ts generalizing st with
  | nil => exact h
  | cons t ts ih =>
    rw [unsubTokens]
    cases hx : unsubscribeToken lenient t st with
    | mk st1 r =>
      have h1 : tidyRoot st1.subsTree = true := by
        have h2 := tidy_unsubscribeToken lenient t st h
        rwa [hx] at h2
      cases r with
      | none => exact ih st1 h1
      | some e => exact h1

theorem tidy_unsubscribe (arg : Option UnsubArg) (harg : Option HandlerArg)
    (larg : Option Bool) (st : PubState)
    (h : tidyRoot st.subsTree = true) :
    tidyRoot (unsubscribe arg harg larg st).1.subsTree = true := by
  rw [unsubscribe.eq_def]
  cases arg with
  | none => dsimp only; split <;> exact h
  | some a =>
    cases a with
    | toks ts => exact tidy_unsubTokens _ ts st h
    | tok t => exact tidy_unsubscribeToken _ t st h
    | top topicStr =>
      cases harg with
      | none => dsimp only; split <;> exact h
      | some ha =>
        cases ha with
        | flag b => exact h
        | fn hh =>
          dsimp only
          cases hs : scanTopicHandler topicStr hh st.subscrs with
          | none => exact h
          | some sub =>
            dsimp only
            cases hr : removeSubscription (splitTopic topicStr) sub.token st.subsTree with
            | none => exact h
            | some tree1 => exact tidy_remove _ sub.token _ tree1 h hr

theorem tidy_unsub_pair (arg : Option UnsubArg) (harg : Option HandlerArg)
    (larg : Option Bool) (st : PubState) (p : PubState × Option String)
    (h : tidyRoot st.subsTree = true) (hp : unsubscribe arg harg larg st = p) :
    tidyRoot p.1.subsTree = true := by
  rw [← hp]
  exact tidy_unsubscribe arg harg larg st h

theorem tidy_executeHandler (henv : HEnv) (st : PubState) (token : Nat)
    (topic : String) (data : JsVal) (options : Options)
    (h : tidyRoot st.subsTree = true) :
    tidyRoot (executeHandler henv st token topic data options).1.subsTree = true := by
  rw [executeHandler]
  cases hg : regGet st.subscrs token with
  | none => exact h
  | some sub0 =>
    dsimp only
    cases hi : sub0.options.invocations with
    | none => exact tidy_callHandler henv st sub0 topic data options h
    | some n =>
      dsimp only
      by_cases hn : n > 0
      · rw [if_pos hn]
        by_cases hm : n - 1 < 1
        · rw [if_pos hm]
          split
          next st2 e heq =>
            exact tidy_unsub_pair _ none none _ _ (by exact h) heq
          next st2 heq =>
            exact tidy_callHandler henv st2 _ topic data options
              (tidy_unsub_pair _ none none _ _ (by exact h) heq)
        · rw [if_neg hm]
          exact tidy_callHandler henv _ _ topic data options h
      · rw [if_neg hn]
        exact tidy_callHandler henv st sub0 topic data options h

theorem tidy_exec_pair (henv : HEnv) (token : Nat) (topic : String) (data : JsVal)
    (options : Options) (st : PubState) (p : PubState × ExecResult)
    (h : tidyRoot st.subsTree = true)
    (hp : executeHandler henv st token topic data options = p) :
    tidyRoot p.1.subsTree = true := by
  rw [← hp]
  exact tidy_executeHandler henv st token topic data options h

theorem tidy_publishLoop (henv : HEnv) (topic : String) (data : JsVal)
    (options : Options) (cands : List Candidate) (st : PubState)
    (h : tidyRoot st.subsTree = true) :
    tidyRoot (publishLoop henv topic data options st cands).1.subsTree = true := by
  induction cands generalizing st with
  | nil => exact h
  | cons c rest ih =>
    rw [publishLoop]
    cases hx : executeHandler henv st c.token topic data options with
    | mk st1 r =>
      have h1 : tidyRoot st1.subsTree = true :=
        tidy_exec_pair henv c.token topic data options st _ h hx
      cases r with
      | thrown e => exact h1
      | ret v =>
        dsimp only
        by_cases hc : v = JsVal.bool false ∧ options.cancelable ≠ some false
        · rw [if_pos hc]
          exact h1
        · rw [if_neg hc]
          exact ih st1 h1

theorem tidy_replayLoop (henv : HEnv) (subTopic : String) (token : Nat)
    (subOpts : Options) (pms : List (String × PersistentMessage)) (st : PubState)
    (h : tidyRoot st.subsTree = true) :
    tidyRoot (replayLoop henv subTopic token subOpts pms st).1.subsTree = true := by
  induction pms generalizing st with
  | nil => exact h
  | cons kp rest ih =>
    obtain ⟨key, pm⟩ := kp
    rw [replayLoop]
    by_cases hk : replayKeyMatches subTopic key = true
    · rw [if_pos hk]
      by_cases ha : pm.options.async.getD st.globalOptions.async = true
      · rw [if_pos ha]
        exact ih _ h
      · rw [if_neg ha]
        cases hx : executeHandler henv st token key pm.data subOpts with
        | mk st1 r =>
          have h1 : tidyRoot st1.subsTree = true :=
            tidy_exec_pair henv token key pm.data subOpts st _ h hx
          cases r with
          | thrown e => exact h1
          | ret v =>
            dsimp only
            by_cases hc : v = JsVal.bool false ∧ subOpts.cancelable = some true
            · rw [if_pos hc]
              exact h1
            · rw [if_neg hc]
              exact ih st1 h1
    · rw [if_neg hk]
      exact ih st h

theorem tidy_subscribe (henv : HEnv) (topic : Option String) (handler : Option Nat)
    (options : Options) (st : PubState)
    (h : tidyRoot st.subsTree = true) :
    tidyRoot (subscribe henv topic handler options st).1.subsTree = true := by
  rw [subscribe.eq_def]
  cases topic with
  | none => exact h
  | some topicStr =>
    dsimp only
    by_cases hu : hasUndefinedSub topicStr = true
    · rw [if_pos hu]
      exact h
    · rw [if_neg hu]
      cases handler with
      | none => exact h
      | some hh =>
        dsimp only
        have htree : tidyRoot (addSubscription (splitTopic topicStr)
            st.tokenCounter st.subsTree) = true :=
          tidy_add_root _ _ (splitTopic_ne_nil topicStr) _ h
        by_cases hp : options.persist ≠ some true
        · rw [if_pos hp]
          exact htree
        · rw [if_neg hp]
          exact tidy_replayLoop henv topicStr st.tokenCounter options
            st.persistentMessages _ htree

theorem tidy_publish (henv : HEnv) (cenv : CEnv) (topic : String) (data : JsVal)
    (options : Options) (st : PubState)
    (h : tidyRoot st.subsTree = true) :
    tidyRoot (publish henv cenv topic data options st).1.subsTree = true := by
  rw [publish]
  by_cases hp : options.persist = some true
  · rw [if_pos hp]
    by_cases hs : topicHasStar topic = true
    · rw [if_pos hs]
      exact h
    · rw [if_neg hs]
      dsimp only
      by_cases ha : options.async.getD st.globalOptions.async = true
      · rw [if_pos ha]
        exact h
      · rw [if_neg ha]
        exact tidy_publishLoop henv topic data options _ _ h
  · rw [if_neg hp]
    by_cases hs : topicHasStar topic = true
    · rw [if_pos hs]
      exact h
    · rw [if_neg hs]
      dsimp only
      by_cases ha : options.async.getD st.globalOptions.async = true
      · rw [if_pos ha]
        exact h
      · rw [if_neg ha]
        exact tidy_publishLoop henv topic data options _ _ h

theorem tidyNode_nodeAt (S : List String) (n c : Node) (hn : tidyNode n = true)
    (hc : nodeAt n S = some c) : tidyNode c = true := by
  induction S generalizing n with
  | nil =>
    rw [nodeAt] at hc
    injection hc with hh
    rw [← hh]
    exact hn
  | cons s rest ih =>
    rw [nodeAt] at hc
    cases hg : childGet (n.topics.getD []) s with
    | none =>
      rw [hg] at hc
      exact absurd hc (by simp)
    | some c2 =>
      rw [hg] at hc
      have h2 : tidyNode c2 = true := by
        cases n with
        | mk subs topics =>
          have hq := tidyNode_parts subs topics hn
          exact tidyChildren_childGet _ s c2 (tidyTopics_children topics hq.2.1) hg
      exact ih c2 h2 hc

theorem tidyNode_not_empty (c : Node) (h : tidyNode c = true) :
    ((c.subscribers.getD []).isEmpty && (c.topics.getD []).isEmpty) = false := by
  cases c with
  | mk subs topics =>
    have hp := tidyNode_parts subs topics h
    dsimp only [Node.subscribers, Node.topics]
    cases subs with
    | some l =>
      have hl : l.isEmpty = false := by
        have h1 := hp.1
        rw [optListNonempty] at h1
        simpa using h1
      simp [hl]
    | none =>
      cases topics with
      | none => simp at hp
      | some cs =>
        have hcs : cs.isEmpty = false := by
          have h2 := hp.2.1
          rw [tidyTopics, Bool.and_eq_true] at h2
          simpa using h2.1
        simp [hcs]

theorem tidy_no_empty_node (n : Node) (hn : tidyRoot n = true) (s : String)
    (S : List String) (c : Node) (hc : nodeAt n (s :: S) = some c) :
    ((c.subscribers.getD []).isEmpty && (c.topics.getD []).isEmpty) = false := by
  rw [nodeAt] at hc
  cases hg : childGet (n.topics.getD []) s with
  | none =>
    rw [hg] at hc
    exact absurd hc (by simp)
  | some c2 =>
    rw [hg] at hc
    have h2 : tidyNode c2 = true := by
      cases n with
      | mk subs topics =>
        have hq := tidyRoot_parts subs topics hn
        exact tidyChildren_childGet _ s c2 hq.2 hg
    exact tidyNode_not_empty c (tidyNode_nodeAt S c2 c h2 hc)

/-- **C9**: Trie pruning invariant.  The initial tree is tidy; every node
reached through a non-empty path in a tidy tree has a non-empty subscriber
set or a non-empty child map (no empty node exists); every public
operation — `configure`, `removePersistentMessage`, `subscribe`,
`unsubscribe`, `publish`, and the deferred `executeHandler` units — maps a
tidy tree to a tidy tree; and in the concrete scenario of the spec, after
the single subscriber on `a/b/c` is unsubscribed no trie nodes remain for
that path (the tree is the bare root, the path's first segment resolves to
no node) and a subsequent match traversal finds nothing stale. -/
theorem c9_pruning_invariant :
    (tidyRoot initState.subsTree = true)
    ∧ (∀ n : Node, tidyRoot n = true → ∀ (s : String) (S : List String) (c : Node),
        nodeAt n (s :: S) = some c →
        ((c.subscribers.getD []).isEmpty && (c.topics.getD []).isEmpty) = false)
    ∧ (∀ (args : Option ConfigArgs) (st : PubState), tidyRoot st.subsTree = true →
        tidyRoot (configure args st).1.subsTree = true)
    ∧ (∀ (t : String) (st : PubState), tidyRoot st.subsTree = true →
        tidyRoot (removePersistentMessage t st).subsTree = true)
    ∧ (∀ (henv : HEnv) (topic : Option String) (handler : Option Nat)
        (options : Options) (st : PubState), tidyRoot st.subsTree = true →
        tidyRoot (subscribe henv topic handler options st).1.subsTree = true)
    ∧ (∀ (arg : Option UnsubArg) (harg : Option HandlerArg) (larg : Option Bool)
        (st : PubState), tidyRoot st.subsTree = true →
        tidyRoot (unsubscribe arg harg larg st).1.subsTree = true)
    ∧ (∀ (henv : HEnv) (cenv : CEnv) (topic : String) (data : JsVal)
        (options : Options) (st : PubState), tidyRoot st.subsTree = true →
        tidyRoot (publish henv cenv topic data options st).1.subsTree = true)
    ∧ (∀ (henv : HEnv) (st : PubState) (token : Nat) (topic : String)
        (data : JsVal) (options : Options), tidyRoot st.subsTree = true →
        tidyRoot (executeHandler henv st token topic data options).1.subsTree = true)
    ∧ (nodeAt (subscribe falseHenv (some "a/b/c") (some 1) {} initState).1.subsTree
        ["a", "b", "c"] = some (Node.mk (some [0]) none))
    ∧ ((unsubscribe (some (UnsubArg.tok 0)) none none
          (subscribe falseHenv (some "a/b/c") (some 1) {} initState).1).1.subsTree
        = Node.mk none (some []))
    ∧ (nodeAt (unsubscribe (some (UnsubArg.tok 0)) none none
          (subscribe falseHenv (some "a/b/c") (some 1) {} initState).1).1.subsTree
        ["a"] = none)
    ∧ (findSubscribers (fun _ _ _ => JsVal.bool true)
        (unsubscribe (some (UnsubArg.tok 0)) none none
          (subscribe falseHenv (some "a/b/c") (some 1) {} initState).1).1.subscrs
        (unsubscribe (some (UnsubArg.tok 0)) none none
          (subscribe falseHenv (some "a/b/c") (some 1) {} initState).1).1.globalOptions
        (splitTopic "a/b/c") JsVal.undef {}
        (unsubscribe (some (UnsubArg.tok 0)) none none
          (subscribe falseHenv (some "a/b/c") (some 1) {} initState).1).1.subsTree
        "a/b/c" [] = []) := by
  refine ⟨rfl, ?_, ?_, ?_, ?_, ?_, ?_, ?_, ?_, ?_, ?_, ?_⟩
  · exact fun n hn s S c hc => tidy_no_empty_node n hn s S c hc
  · exact fun args st h => h
  · exact fun t st h => h
  · exact tidy_subscribe
  · exact tidy_unsubscribe
  · exact tidy_publish
  · exact tidy_executeHandler
  · rfl
  · rfl
  · rfl
  · rfl

/-- Witness for C9: the preservation conjuncts applied at the concrete
subscribe-then-unsubscribe scenario, the subscribe hypothesis discharged
on the tidy initial tree. -/
theorem c9_pruning_invariant_witness :
    tidyRoot (unsubscribe (some (UnsubArg.tok 0)) none none
      (subscribe falseHenv (some "a/b/c") (some 1) {} initState).1).1.subsTree = true :=
  c9_pruning_invariant.2.2.2.2.2.1 (some (UnsubArg.tok 0)) none none
    (subscribe falseHenv (some "a/b/c") (some 1) {} initState).1
    (c9_pruning_invariant.2.2.2.2.1 falseHenv (some "a/b/c") (some 1) {} initState rfl)
